import Mathlib

/-!
Verification of the video-summaryzer repository (whisper_cli.py,
video_transcriber.py) against its natural-language specification.

Strings are modelled as `List Char` (Lean `String.data`); Python floats are
modelled as exact rationals `ℚ` (the multiplier table 0.1 … 1.5 and all
derived arithmetic is idealized to exact rational arithmetic); byte strings
are `List ℕ` with values < 256.  Fallible external calls (model load, audio
load, inference, file writes) are `Except String` parameters of the
embedding.
-/

namespace WhisperCli

/-! ## Text sanitizer (whisper_cli.py, `sanitize_for_json`, lines 173-208) -/

/-- Model of the character class `[\x00-\x08\x0b\x0c\x0e-\x1f\x7f-\x9f]`
used by `re.sub(..., ' ', text)` at line 179. -/
def isCtrlChar (c : Char) : Bool :=
  let n := c.toNat
  (n ≤ 0x08) || n = 0x0b || n = 0x0c || (0x0e ≤ n && n ≤ 0x1f) || (0x7f ≤ n && n ≤ 0x9f)

/-- Line 179: every control character in the class is replaced by a space. -/
def removeControls (l : List Char) : List Char :=
  l.map (fun c => if isCtrlChar c then ' ' else c)

/-- The `replacements` dict of lines 182-191, in insertion order.  Every key
is a single character; values may be several characters. -/
def replacements : List (Char × List Char) :=
  [('–', ['-']),
   ('—', ['-', '-']),
   ('‘', ['\'']),
   ('’', ['\'']),
   ('“', ['"']),
   ('”', ['"']),
   ('…', ['.', '.', '.']),
   (' ', [' '])]

/-- Python `text.replace(old, new)` for a one-character pattern `old`:
each occurrence of `old` is replaced by `new`. -/
def replaceChar (old : Char) (new : List Char) : List Char → List Char
  | [] => []
  | d :: rest => (if d = old then new else [d]) ++ replaceChar old new rest

/-- Lines 193-194: the replacement table is applied sequentially. -/
def applyReplacements (l : List Char) : List Char :=
  replacements.foldl (fun acc p => replaceChar p.1 p.2 acc) l

/-- Line 199: the lowercase accent allow-list `'àáâãäåæçèéêëìíîïñòóôõöøùúûüý'`. -/
def lowerAccents : List Char := "àáâãäåæçèéêëìíîïñòóôõöøùúûüý".data

/-- Line 200: the uppercase accent allow-list `'ÀÁÂÃÄÅÆÇÈÉÊËÌÍÎÏÑÒÓÔÕÖØÙÚÛÜÝ'`. -/
def upperAccents : List Char := "ÀÁÂÃÄÅÆÇÈÉÊËÌÍÎÏÑÒÓÔÕÖØÙÚÛÜÝ".data

/-- The whitespace allow-list `'\n\r\t '` of line 201. -/
def wsAllow : List Char := ['\n', '\r', '\t', ' ']

/-- The filter condition of lines 197-202.  For a code point below 127,
Python's `c.isprintable()` holds exactly for code points 32..126, so the
conjunct `c.isprintable() and ord(c) < 127` is `32 ≤ n ∧ n ≤ 126`. -/
def isAllowedChar (c : Char) : Bool :=
  (32 ≤ c.toNat && c.toNat ≤ 126) || lowerAccents.contains c ||
    upperAccents.contains c || wsAllow.contains c

/-- Lines 197-202: keep only allow-listed characters. -/
def filterAllowed (l : List Char) : List Char :=
  l.filter isAllowedChar

/-- The set matched by `\s` in Python 3 `re` on `str` (and the set stripped
by `str.strip()`): ASCII whitespace, the C1 whitespace controls, and the
Unicode space characters. -/
def isPySpace (c : Char) : Bool :=
  let n := c.toNat
  n = 32 || (9 ≤ n && n ≤ 13) || (28 ≤ n && n ≤ 31) || n = 0x85 || n = 0xa0 ||
    n = 0x1680 || (0x2000 ≤ n && n ≤ 0x200a) || n = 0x2028 || n = 0x2029 ||
    n = 0x202f || n = 0x205f || n = 0x3000

/-- Worker for `re.sub(r'\s+', ' ', text)` (line 205): the flag records
whether we are inside a whitespace run that has already emitted its space. -/
def collapseWsGo : Bool → List Char → List Char
  | _, [] => []
  | inRun, c :: rest =>
    if isPySpace c then
      if inRun then collapseWsGo true rest
      else ' ' :: collapseWsGo true rest
    else c :: collapseWsGo false rest

/-- Line 205: every maximal run of whitespace becomes a single space. -/
def collapseWs (l : List Char) : List Char := collapseWsGo false l

/-- Line 206: Python `str.strip()` — drop leading and trailing whitespace. -/
def stripPy (l : List Char) : List Char :=
  ((l.dropWhile isPySpace).reverse.dropWhile isPySpace).reverse

/-- `sanitize_for_json` (lines 173-208), parametrized by the Unicode NFKD
normalization step of line 176 (`unicodedata.normalize('NFKD', text)`),
which depends on the external Unicode character database: first normalize,
then replace control characters by spaces, apply the punctuation
replacements, filter to the allow-list, collapse whitespace runs, and strip. -/
def sanitize_for_json (normalize : List Char → List Char) (l : List Char) : List Char :=
  stripPy (collapseWs (filterAllowed (applyReplacements (removeControls (normalize l)))))

/-! ### Concrete model of the NFKD normalization step

`unicodedata.normalize('NFKD', ·)` is external library code.  The table
below records the real Unicode compatibility decompositions of exactly the
characters this program's allow-list and replacement table care about (data
from the Unicode character database): each accented Latin letter of the
allow-list that has a decomposition maps to its base letter followed by the
combining mark; `æ ø Æ Ø` have no decomposition; NO-BREAK SPACE and
HORIZONTAL ELLIPSIS have compatibility decompositions to a plain space and
`...`.  Characters outside the table are treated as NFKD-invariant (true
for all ASCII; an idealization for exotic compatibility characters, which
the filter of lines 197-202 removes anyway). -/

/-- Combining grave accent U+0300. -/
def cGrave : Char := '̀'
/-- Combining acute accent U+0301. -/
def cAcute : Char := '́'
/-- Combining circumflex accent U+0302. -/
def cCirc : Char := '̂'
/-- Combining tilde U+0303. -/
def cTilde : Char := '̃'
/-- Combining diaeresis U+0308. -/
def cUml : Char := '̈'
/-- Combining ring above U+030A. -/
def cRing : Char := '̊'
/-- Combining cedilla U+0327. -/
def cCedil : Char := '̧'

/-- Unicode NFKD decompositions of the characters relevant to this program. -/
def nfkdTable : List (Char × List Char) :=
  [('à', ['a', cGrave]), ('á', ['a', cAcute]), ('â', ['a', cCirc]),
   ('ã', ['a', cTilde]), ('ä', ['a', cUml]), ('å', ['a', cRing]),
   ('ç', ['c', cCedil]),
   ('è', ['e', cGrave]), ('é', ['e', cAcute]), ('ê', ['e', cCirc]),
   ('ë', ['e', cUml]),
   ('ì', ['i', cGrave]), ('í', ['i', cAcute]), ('î', ['i', cCirc]),
   ('ï', ['i', cUml]),
   ('ñ', ['n', cTilde]),
   ('ò', ['o', cGrave]), ('ó', ['o', cAcute]), ('ô', ['o', cCirc]),
   ('õ', ['o', cTilde]), ('ö', ['o', cUml]),
   ('ù', ['u', cGrave]), ('ú', ['u', cAcute]), ('û', ['u', cCirc]),
   ('ü', ['u', cUml]),
   ('ý', ['y', cAcute]),
   ('À', ['A', cGrave]), ('Á', ['A', cAcute]), ('Â', ['A', cCirc]),
   ('Ã', ['A', cTilde]), ('Ä', ['A', cUml]), ('Å', ['A', cRing]),
   ('Ç', ['C', cCedil]),
   ('È', ['E', cGrave]), ('É', ['E', cAcute]), ('Ê', ['E', cCirc]),
   ('Ë', ['E', cUml]),
   ('Ì', ['I', cGrave]), ('Í', ['I', cAcute]), ('Î', ['I', cCirc]),
   ('Ï', ['I', cUml]),
   ('Ñ', ['N', cTilde]),
   ('Ò', ['O', cGrave]), ('Ó', ['O', cAcute]), ('Ô', ['O', cCirc]),
   ('Õ', ['O', cTilde]), ('Ö', ['O', cUml]),
   ('Ù', ['U', cGrave]), ('Ú', ['U', cAcute]), ('Û', ['U', cCirc]),
   ('Ü', ['U', cUml]),
   ('Ý', ['Y', cAcute]),
   (' ', [' ']),
   ('…', ['.', '.', '.'])]

/-- Per-character NFKD decomposition: table entry, or the character itself. -/
def nfkdChar (c : Char) : List Char :=
  match List.lookup c nfkdTable with
  | some l => l
  | none => [c]

/-- The modelled NFKD normalization, applied characterwise.  (Real NFKD also
canonically reorders adjacent combining marks; no input this program derives
from the table above produces two adjacent combining marks, so the
characterwise model agrees on the relevant domain.) -/
def nfkdNormalize (l : List Char) : List Char :=
  l.flatMap nfkdChar

/-- The sanitizer with the concrete NFKD model plugged in, on `String`. -/
def sanitizeStr (s : String) : String :=
  ⟨sanitize_for_json nfkdNormalize s.data⟩

/-- The accented allow-list letters that have a Unicode decomposition:
everything in the allow-lists except `æ ø Æ Ø`. -/
def decomposableAccents : List Char :=
  "àáâãäåçèéêëìíîïñòóôõöùúûüýÀÁÂÃÄÅÇÈÉÊËÌÍÎÏÑÒÓÔÕÖÙÚÛÜÝ".data

/-! ## Progress estimation (whisper_cli.py, lines 74-141)

Python floats are idealized as exact rationals. -/

/-- Python `int(x)`: truncation toward zero. -/
def pyInt (q : ℚ) : ℤ :=
  if 0 ≤ q then ⌊q⌋ else -⌊-q⌋

/-- Python `round` (used by the `:.0f` format): round half to even. -/
def pyRound0 (q : ℚ) : ℤ :=
  if q - ⌊q⌋ < 1/2 then ⌊q⌋
  else if 1/2 < q - ⌊q⌋ then ⌊q⌋ + 1
  else if Even ⌊q⌋ then ⌊q⌋ else ⌊q⌋ + 1

/-- Line 74: `time_multipliers = {'tiny': 0.1, 'base': 0.2, 'small': 0.4,
'medium': 0.8, 'large': 1.5}`, accessed with `.get(model_name, 0.5)`. -/
def time_multipliers (m : String) : ℚ :=
  if m = "tiny" then 1/10
  else if m = "base" then 1/5
  else if m = "small" then 2/5
  else if m = "medium" then 4/5
  else if m = "large" then 3/2
  else 1/2

/-- The five known model-size tags. -/
def knownModels : List String := ["tiny", "base", "small", "medium", "large"]

/-- Line 75 / 126: `expected_time = duration * time_multipliers.get(model_name, 0.5)`. -/
def expected_time (duration : ℚ) (m : String) : ℚ :=
  duration * time_multipliers m

/-- Line 129: `steps = max(10, int(expected_time / 5))`. -/
def stepsZ (duration : ℚ) (m : String) : ℤ :=
  max 10 (pyInt (expected_time duration m / 5))

/-- The step count as a natural number (it is always at least 10). -/
def steps (duration : ℚ) (m : String) : ℕ :=
  (stepsZ duration m).toNat

/-- Line 137: `raw_progress = i / steps`. -/
def raw_progress (s i : ℕ) : ℚ :=
  (i : ℚ) / (s : ℚ)

/-- Line 138: `simulation_progress = raw_progress * (2 - raw_progress)`. -/
def simulation_progress (s i : ℕ) : ℚ :=
  raw_progress s i * (2 - raw_progress s i)

/-- Line 93: the percentage sent by `progress_callback` is `50 + int(progress * 40)`. -/
def emittedPercent (p : ℚ) : ℤ :=
  50 + pyInt (p * 40)

/-- The sequence of percentages a full simulated run (`simulate_progress`,
lines 123-141, iterations `i = 0 .. steps-1`) passes to `progress_callback`. -/
def simulatedPercents (d : ℚ) (m : String) : List ℤ :=
  (List.range (steps d m)).map (fun i => emittedPercent (simulation_progress (steps d m) i))

/-! ## Byte-level channel: UTF-8 and base64 -/

/-- UTF-8 encoding of one code point (model of CPython `str.encode('utf-8')`
restricted to one character). -/
def utf8EncodeChar (c : Char) : List ℕ :=
  let n := c.toNat
  if n < 0x80 then [n]
  else if n < 0x800 then [0xc0 + n / 0x40, 0x80 + n % 0x40]
  else if n < 0x10000 then
    [0xe0 + n / 0x1000, 0x80 + n / 0x40 % 0x40, 0x80 + n % 0x40]
  else
    [0xf0 + n / 0x40000, 0x80 + n / 0x1000 % 0x40, 0x80 + n / 0x40 % 0x40, 0x80 + n % 0x40]

/-- UTF-8 encoding of a character list (`json_str.encode('utf-8')`, line 252). -/
def utf8Encode (l : List Char) : List ℕ :=
  l.flatMap utf8EncodeChar

/-- Is `b` a UTF-8 continuation byte? -/
def isContByte (b : ℕ) : Bool :=
  0x80 ≤ b && b < 0xc0

/-! UTF-8 decoding (model of the parent process's `bytes.decode('utf-8')`),
split by sequence length. -/

mutual

/-- UTF-8 decoding of a byte list. -/
def utf8Decode : List ℕ → Option (List Char)
  | [] => some []
  | b :: rest =>
    if b < 0x80 then (utf8Decode rest).map (fun cs => Char.ofNat b :: cs)
    else if b < 0xc0 then none
    else if b < 0xe0 then utf8Dec2 b rest
    else if b < 0xf0 then utf8Dec3 b rest
    else if b < 0xf8 then utf8Dec4 b rest
    else none
termination_by l => l.length

/-- Decode the continuation of a two-byte UTF-8 sequence. -/
def utf8Dec2 (b : ℕ) : List ℕ → Option (List Char)
  | b2 :: r =>
    if isContByte b2 then
      (utf8Decode r).map (fun cs => Char.ofNat ((b - 0xc0) * 0x40 + (b2 - 0x80)) :: cs)
    else none
  | [] => none
termination_by l => l.length

/-- Decode the continuation of a three-byte UTF-8 sequence. -/
def utf8Dec3 (b : ℕ) : List ℕ → Option (List Char)
  | b2 :: b3 :: r =>
    if isContByte b2 && isContByte b3 then
      (utf8Decode r).map (fun cs =>
        Char.ofNat (((b - 0xe0) * 0x40 + (b2 - 0x80)) * 0x40 + (b3 - 0x80)) :: cs)
    else none
  | _ => none
termination_by l => l.length

/-- Decode the continuation of a four-byte UTF-8 sequence. -/
def utf8Dec4 (b : ℕ) : List ℕ → Option (List Char)
  | b2 :: b3 :: b4 :: r =>
    if isContByte b2 && isContByte b3 && isContByte b4 then
      (utf8Decode r).map (fun cs =>
        Char.ofNat ((((b - 0xf0) * 0x40 + (b2 - 0x80)) * 0x40 + (b3 - 0x80)) * 0x40
          + (b4 - 0x80)) :: cs)
    else none
  | _ => none
termination_by l => l.length

end

/-- The standard base64 alphabet, as used by `base64.b64encode` (line 253). -/
def b64Alphabet : List Char :=
  "ABCDEFGHIJKLMNOPQRSTUVWXYZabcdefghijklmnopqrstuvwxyz0123456789+/".data

/-- The base64 character for a 6-bit value. -/
def sextetChar (n : ℕ) : Char :=
  b64Alphabet.getD n 'A'

/-- The 6-bit value of a base64 character. -/
def sextetVal (c : Char) : Option ℕ :=
  b64Alphabet.indexOf? c

/-- Base64 encoding of a byte list with `=` padding (`base64.b64encode`). -/
def b64Encode : List ℕ → List Char
  | [] => []
  | [a] => [sextetChar (a / 4), sextetChar (a % 4 * 16), '=', '=']
  | [a, b] => [sextetChar (a / 4), sextetChar (a % 4 * 16 + b / 16), sextetChar (b % 16 * 4), '=']
  | a :: b :: c :: rest =>
    sextetChar (a / 4) :: sextetChar (a % 4 * 16 + b / 16) ::
      sextetChar (b % 16 * 4 + c / 64) :: sextetChar (c % 64) :: b64Encode rest

/-- Base64 decoding (model of the parent process's `base64.b64decode`). -/
def b64Decode : List Char → Option (List ℕ)
  | [] => some []
  | c1 :: c2 :: c3 :: c4 :: rest =>
    match sextetVal c1, sextetVal c2 with
    | some s1, some s2 =>
      if c3 = '=' then
        if c4 = '=' && rest.isEmpty then some [s1 * 4 + s2 / 16] else none
      else
        match sextetVal c3 with
        | some s3 =>
          if c4 = '=' then
            if rest.isEmpty then some [s1 * 4 + s2 / 16, s2 % 16 * 16 + s3 / 4] else none
          else
            match sextetVal c4, b64Decode rest with
            | some s4, some bs =>
              some ((s1 * 4 + s2 / 16) :: (s2 % 16 * 16 + s3 / 4) :: (s3 % 4 * 64 + s4) :: bs)
            | _, _ => none
        | none => none
    | _, _ => none
  | _ => none

/-! ## Decimal rendering and parsing -/

/-- Digit character for a value below 10. -/
def digitChar (d : ℕ) : Char :=
  Char.ofNat (48 + d)

/-- Decimal digits of `n`, least significant first; the first argument is
fuel (any fuel at least `n` gives the true digit list). -/
def digitsRevGo : ℕ → ℕ → List ℕ
  | 0, _ => []
  | _ + 1, 0 => []
  | fuel + 1, n + 1 => (n + 1) % 10 :: digitsRevGo fuel ((n + 1) / 10)

/-- Decimal digits of `n`, least significant first. -/
def natDigitsRev (n : ℕ) : List ℕ :=
  digitsRevGo n n

/-- The value of a least-significant-first digit list. -/
def valDigitsRev (l : List ℕ) : ℕ :=
  l.foldr (fun d acc => d + 10 * acc) 0

/-- Decimal rendering of a natural number (Python `repr` / `format` of an int). -/
def natToChars (n : ℕ) : List Char :=
  if n = 0 then ['0'] else ((natDigitsRev n).map digitChar).reverse

/-- Is `c` an ASCII digit? -/
def isDigitChar (c : Char) : Bool :=
  48 ≤ c.toNat && c.toNat ≤ 57

/-- Consume a maximal digit run, returning the accumulated value, the count
of digits consumed and the remaining input. -/
def parseDigitsGo : ℕ → ℕ → List Char → ℕ × ℕ × List Char
  | acc, cnt, [] => (acc, cnt, [])
  | acc, cnt, c :: rest =>
    if isDigitChar c then parseDigitsGo (acc * 10 + (c.toNat - 48)) (cnt + 1) rest
    else (acc, cnt, c :: rest)

/-- Parse a nonempty digit run. -/
def parseNatCnt : List Char → Option (ℕ × ℕ × List Char)
  | [] => none
  | c :: rest =>
    if isDigitChar c then some (parseDigitsGo 0 0 (c :: rest)) else none

/-! ## Python-float model for the `duration` field

`duration = len(audio)/16000` is a Python float whose `repr` (used by
`json.dumps`) is a finite decimal.  A non-negative finite decimal is
modelled as a pair `(mant, fracDigits)` of value `mant / 10 ^ fracDigits`;
the canonical form (no trailing fractional zeros, integers with exponent 0)
mirrors the shortest-repr behaviour of CPython floats for such values. -/

/-- Strip trailing zero fractional digits: `canonDec m f`

is the canonical representation of `m / 10 ^ f`. -/
def canonDec (m : ℕ) : ℕ → ℕ × ℕ
  | 0 => (m, 0)
  | f + 1 => if m % 10 = 0 then canonDec (m / 10) f else (m, f + 1)

/-- Canonical-form predicate for a modelled decimal. -/
def decWf (p : ℕ × ℕ) : Prop :=
  p.2 = 0 ∨ (0 < p.2 ∧ p.1 % 10 ≠ 0)

/-- The modelled decimal for a duration of `n` audio samples at 16 kHz:
`n / 16000 = (625 * n) / 10 ^ 7`. -/
def decOfSamples (n : ℕ) : ℕ × ℕ :=
  canonDec (625 * n) 7

/-- Left-pad a character list with `'0'` to the given width. -/
def padZeros (w : ℕ) (l : List Char) : List Char :=
  List.replicate (w - l.length) '0' ++ l

/-- Render a modelled decimal as Python `repr` renders such a float:
`"7.5"`, `"0.0625"`, and a trailing `".0"` for integral values. -/
def renderDec (p : ℕ × ℕ) : List Char :=
  if p.2 = 0 then natToChars p.1 ++ ['.', '0']
  else natToChars (p.1 / 10 ^ p.2) ++ '.' :: padZeros p.2 (natToChars (p.1 % 10 ^ p.2))

/-- Parse a decimal literal `digits.digits` into canonical form (model of
the parent's JSON number parsing: equal-valued literals give equal floats). -/
def parseDec (l : List Char) : Option ((ℕ × ℕ) × List Char) :=
  match parseNatCnt l with
  | none => none
  | some (ip, _, r1) =>
    match r1 with
    | '.' :: r2 =>
      match parseNatCnt r2 with
      | none => none
      | some (fv, fc, r3) => some (canonDec (ip * 10 ^ fc + fv) fc, r3)
    | _ => none

/-! ## JSON serialization of the final result (lines 214-220, 249) -/

/-- The final result dict built at lines 214-220: `text`, `language`,
`timestamp`, `model`, `duration`, and (if the transcription file was saved,
line 238) `saved_file`. -/
structure FinalResult where
  text : String
  language : String
  timestamp : String
  model : String
  duration : ℕ × ℕ
  savedFile : Option String
  deriving Repr, DecidableEq

/-- Hex digit character (lowercase, as Python's `'\u%04x'`). -/
def digitHex (d : ℕ) : Char :=
  "0123456789abcdef".data.getD d '0'

/-- JSON escape of one character, as CPython `json.dumps` with
`ensure_ascii=False` emits it: `"` and `\` are escaped, control characters
use the short escapes `\b \t \n \f \r` or `\u00xx`, everything else is
passed through raw. -/
def escapeChar (c : Char) : List Char :=
  if c = '"' then ['\\', '"']
  else if c = '\\' then ['\\', '\\']
  else if c = '\n' then ['\\', 'n']
  else if c = '\r' then ['\\', 'r']
  else if c = '\t' then ['\\', 't']
  else if c.toNat = 8 then ['\\', 'b']
  else if c.toNat = 12 then ['\\', 'f']
  else if c.toNat < 0x20 then
    ['\\', 'u', '0', '0', digitHex (c.toNat / 16), digitHex (c.toNat % 16)]
  else [c]

/-- The escaped body of a JSON string literal. -/
def escapeString (s : String) : List Char :=
  s.data.flatMap escapeChar

/-- `json.dumps(final_result, ensure_ascii=False)` (line 249): keys in dict
insertion order, default separators `", "` and `": "`, string values quoted
and escaped, the duration as a bare decimal number — i.e. the text
`{"text": "…", "language": "…", "timestamp": "…", "model": "…",
"duration": N}` with an optional `, "saved_file": "…"` before the brace. -/
def serializeResult (fr : FinalResult) : List Char :=
  "\x7b\"text\": \"".data ++ escapeString fr.text
    ++ "\", \"language\": \"".data ++ escapeString fr.language
    ++ "\", \"timestamp\": \"".data ++ escapeString fr.timestamp
    ++ "\", \"model\": \"".data ++ escapeString fr.model
    ++ "\", \"duration\": ".data ++ renderDec fr.duration
    ++ (match fr.savedFile with
        | some f => ", \"saved_file\": \"".data ++ escapeString f ++ "\"\x7d".data
        | none => "\x7d".data)

/-! ## Parent-side parsing of the delivered payload

Modelled from the spec: "The parent is expected to scan the stream for the
delimiter, extract the enclosed base64 span, decode it, and parse the inner
text as the structured result."  None of this code is in the repository, so
the extractor and the JSON parser below follow the spec's words (standard
JSON parsing, specialized to the fixed shape `serializeResult` emits). -/

/-- Hex digit value. -/
def hexVal (c : Char) : Option ℕ :=
  if 48 ≤ c.toNat ∧ c.toNat ≤ 57 then some (c.toNat - 48)
  else if 97 ≤ c.toNat ∧ c.toNat ≤ 102 then some (c.toNat - 87)
  else if 65 ≤ c.toNat ∧ c.toNat ≤ 70 then some (c.toNat - 55)
  else none

/-! Parsing a JSON string body (the opening quote already consumed):
content up to the closing quote is returned together with the rest of the
input, undoing the standard JSON escapes. -/

mutual

/-- Parse a JSON string body after the opening quote. -/
def parseJString : List Char → Option (List Char × List Char)
  | [] => none
  | c :: rest =>
    if c = '"' then some ([], rest)
    else if c = '\\' then parseJEscape rest
    else (parseJString rest).map (fun p => (c :: p.1, p.2))
termination_by l => l.length

/-- Parse the character after a backslash. -/
def parseJEscape : List Char → Option (List Char × List Char)
  | [] => none
  | e :: r2 =>
    if e = '"' then (parseJString r2).map (fun p => ('"' :: p.1, p.2))
    else if e = '\\' then (parseJString r2).map (fun p => ('\\' :: p.1, p.2))
    else if e = '/' then (parseJString r2).map (fun p => ('/' :: p.1, p.2))
    else if e = 'n' then (parseJString r2).map (fun p => ('\n' :: p.1, p.2))
    else if e = 'r' then (parseJString r2).map (fun p => ('\r' :: p.1, p.2))
    else if e = 't' then (parseJString r2).map (fun p => ('\t' :: p.1, p.2))
    else if e = 'b' then (parseJString r2).map (fun p => (Char.ofNat 8 :: p.1, p.2))
    else if e = 'f' then (parseJString r2).map (fun p => (Char.ofNat 12 :: p.1, p.2))
    else if e = 'u' then parseJHex r2
    else none
termination_by l => l.length

/-- Parse the four hex digits of a `\uXXXX` escape. -/
def parseJHex : List Char → Option (List Char × List Char)
  | h1 :: h2 :: h3 :: h4 :: r3 =>
    match hexVal h1, hexVal h2, hexVal h3, hexVal h4 with
    | some v1, some v2, some v3, some v4 =>
      (parseJString r3).map (fun p =>
        (Char.ofNat (((v1 * 16 + v2) * 16 + v3) * 16 + v4) :: p.1, p.2))
    | _, _, _, _ => none
  | _ => none
termination_by l => l.length

end

/-- Match an exact literal at the head of the input. -/
def expectLit : List Char → List Char → Option (List Char)
  | [], l => some l
  | _ :: _, [] => none
  | c :: cs, d :: l => if c = d then expectLit cs l else none

/-- Parse the inner JSON text back into the structured result (shape-directed
for the object `serializeResult` emits). -/
def parseResult (l : List Char) : Option FinalResult :=
  (expectLit "\x7b\"text\": \"".data l).bind fun r1 =>
  (parseJString r1).bind fun pt =>
  (expectLit ", \"language\": \"".data pt.2).bind fun r3 =>
  (parseJString r3).bind fun pl =>
  (expectLit ", \"timestamp\": \"".data pl.2).bind fun r5 =>
  (parseJString r5).bind fun pts =>
  (expectLit ", \"model\": \"".data pts.2).bind fun r7 =>
  (parseJString r7).bind fun pm =>
  (expectLit ", \"duration\": ".data pm.2).bind fun r9 =>
  (parseDec r9).bind fun pd =>
  if pd.2 = ['\x7d'] then
    some ⟨⟨pt.1⟩, ⟨pl.1⟩, ⟨pts.1⟩, ⟨pm.1⟩, pd.1, none⟩
  else
    (expectLit ", \"saved_file\": \"".data pd.2).bind fun r11 =>
    (parseJString r11).bind fun psf =>
    if psf.2 = ['\x7d'] then
      some ⟨⟨pt.1⟩, ⟨pl.1⟩, ⟨pts.1⟩, ⟨pm.1⟩, pd.1, some ⟨psf.1⟩⟩
    else none

/-! ## Delimiter-wrapped delivery (lines 259-261) -/

/-- Line 260: `delimiter = "===TRANSCRIPTION_RESULT_B64==="`. -/
def delimiter : List Char :=
  "===TRANSCRIPTION_RESULT_B64===".data

/-- Line 261: the emitted line `f"{delimiter}{json_base64}{delimiter}"`,
where `json_base64` is the base64 of the UTF-8 bytes of the JSON text. -/
def deliveryLine (jsonText : List Char) : List Char :=
  delimiter ++ b64Encode (utf8Encode jsonText) ++ delimiter

/-- The full encoding side of the channel for a result object. -/
def encodeDelivery (fr : FinalResult) : List Char :=
  deliveryLine (serializeResult fr)

/-- Modelled from the spec: extract the span enclosed between the delimiter
on both sides of the line. -/
def extractSpan (line : List Char) : Option (List Char) :=
  match expectLit delimiter line with
  | none => none
  | some r =>
    if delimiter.isSuffixOf r then some (r.take (r.length - delimiter.length)) else none

/-- Modelled from the spec: the parent-side decode — extract the
delimiter-wrapped span, base64-decode it, UTF-8-decode the bytes, and parse
the JSON text as the structured result. -/
def decodeDelivery (line : List Char) : Option FinalResult :=
  match extractSpan line with
  | none => none
  | some span =>
    match b64Decode span with
    | none => none
    | some bytes =>
      match utf8Decode bytes with
      | none => none
      | some text => parseResult text

/-! ## The batch entry point (`transcribe_video` / `main`, lines 39-289)

The fallible external collaborators (Whisper model load, audio load,
inference, the transcription-file write) are `Except String` fields of an
environment record; `transcribe_video`'s sequential control flow is embedded
as a pure function from that environment to the list of stdout lines, the
Python-level outcome (normal return or propagated exception) and a flag
recording whether `model.transcribe` was reached.  The lines printed by the
background `simulate_progress` thread are interleaved nondeterministically
in the real program and are not part of this sequential embedding (they are
covered separately by `simulatedPercents`). -/

/-- Nat-to-String decimal rendering. -/
def natToStr (n : ℕ) : String :=
  ⟨natToChars n⟩

/-- `f"{q:.0f}"` for a non-negative idealized float: round half to even. -/
def fmt0f (q : ℚ) : String :=
  let r := pyRound0 q
  if r < 0 then ⟨'-' :: natToChars r.natAbs⟩ else natToStr r.toNat

/-- The inner `format_time` helper of `transcribe_video` (lines 60-71):
human-readable `"…s"`, `"…m …s"` or `"…h …m …s"`. -/
def formatTimeCli (q : ℚ) : String :=
  if q < 60 then fmt0f q ++ "s"
  else if q < 3600 then
    fmt0f (⌊q / 60⌋ : ℤ) ++ "m " ++ fmt0f (q - 60 * ⌊q / 60⌋) ++ "s"
  else
    fmt0f (⌊q / 3600⌋ : ℤ) ++ "h " ++ fmt0f (⌊(q - 3600 * ⌊q / 3600⌋) / 60⌋ : ℤ) ++ "m "
      ++ fmt0f (q - 60 * ⌊q / 60⌋) ++ "s"

/-- A line on standard output: a JSON progress record
`{"progress": p, "status": s}` or the delimiter-wrapped payload line. -/
inductive OutLine where
  | prog (progress : ℤ) (status : String)
  | payload (line : List Char)
  deriving Repr, DecidableEq

/-- A raw inference result (`model.transcribe`'s dict): its `text` value and
optional `language` value (`result.get("language", "unknown")`, line 216).
The embedding uses `Except String (Option WhisperResult)` for the call:
`.error` models a raised exception, `.ok none` a falsy result
(line 159 `if not result`). -/
structure WhisperResult where
  text : String
  language : Option String
  deriving Repr, DecidableEq

/-- The fallible external collaborators of one batch run. -/
structure BatchEnv where
  loadModel : Except String Unit
  loadAudio : Except String ℕ
  transcribe : Except String (Option WhisperResult)
  saveFile : Except String (String × String)
  timestampIso : String

/-- Outcome of one embedded batch run. -/
structure RunOutcome where
  outLines : List OutLine
  result : Except String (Option FinalResult)
  transcribeCalled : Bool
  deriving Repr

/-- The sequential control flow of `transcribe_video` (lines 39-272):
progress records, model load, audio load, inference, result validation,
sanitization, the file save (whose failure is caught at lines 242-244), the
single delimiter-wrapped delivery (lines 247-261), and the outer exception
handler (lines 269-272) that prints a zero-progress error record and
re-raises. -/
def transcribe_video (env : BatchEnv) (modelName : String) : RunOutcome :=
  let out0 : List OutLine :=
    [.prog 10 ("Starting transcription: " ++ modelName ++ " model"),
     .prog 10 "Loading model..."]
  match env.loadModel with
  | .error e => ⟨out0 ++ [.prog 0 ("Error: " ++ e)], .error e, false⟩
  | .ok _ =>
    let out1 := out0 ++ [.prog 30 "Model loaded, detecting audio..."]
    match env.loadAudio with
    | .error e => ⟨out1 ++ [.prog 0 ("Error: " ++ e)], .error e, false⟩
    | .ok n =>
      let duration : ℚ := (n : ℚ) / 16000
      let out2 := out1 ++
        [.prog 50 ("Audio loaded (" ++ formatTimeCli duration ++ "), estimated time: "
          ++ formatTimeCli (expected_time duration modelName))]
      match env.transcribe with
      | .error e => ⟨out2 ++ [.prog 0 ("Error: " ++ e)], .error e, true⟩
      | .ok none =>
        ⟨out2 ++ [.prog 90 "Finalizing transcription...",
                  .prog 0 "Error: No transcription result"], .ok none, true⟩
      | .ok (some r) =>
        let out3 := out2 ++ [.prog 90 "Finalizing transcription..."]
        let text0 : String := ⟨stripPy r.text.data⟩
        if text0 = "" then
          ⟨out3 ++ [.prog 0 "Error: Empty transcription result"], .ok none, true⟩
        else
          let text1 := sanitizeStr text0
          let fr : FinalResult :=
            ⟨text1, r.language.getD "unknown", env.timestampIso, modelName,
             decOfSamples n, none⟩
          match env.saveFile with
          | .ok (fp, fn) =>
            let fr2 : FinalResult := { fr with savedFile := some fp }
            ⟨out3 ++ [.prog 95 ("Saved transcription to " ++ fn),
                      .payload (encodeDelivery fr2)], .ok (some fr2), true⟩
          | .error e =>
            ⟨out3 ++ [.prog 0 ("Error saving file: " ++ e),
                      .payload (encodeDelivery fr)], .ok (some fr), true⟩

/-- `main` (lines 274-289): the process exit status — `exit(1)` when
`transcribe_video` raises, the default `0` otherwise. -/
def mainExitCode (env : BatchEnv) (modelName : String) : ℕ :=
  match (transcribe_video env modelName).result with
  | .error _ => 1
  | .ok _ => 0

/-- Is an output line the payload line? -/
def isPayloadLine : OutLine → Bool
  | .payload _ => true
  | .prog _ _ => false

/-- Modelled from the spec: `whisper.load_audio` is external; on a missing
path the underlying ffmpeg call raises, on an existing one it returns the
audio samples ("missing/invalid input path … reported", spec section 7). -/
def loadAudioOf (pathOk : Bool) (path : String) (samples : ℕ) : Except String ℕ :=
  if pathOk then .ok samples else .error ("Failed to load audio: " ++ path)

/-- Each decomposable allow-list letter paired with its base ASCII letter. -/
def accentBasePairs : List (Char × Char) :=
  [('à', 'a'), ('á', 'a'), ('â', 'a'), ('ã', 'a'), ('ä', 'a'), ('å', 'a'),
   ('ç', 'c'), ('è', 'e'), ('é', 'e'), ('ê', 'e'), ('ë', 'e'),
   ('ì', 'i'), ('í', 'i'), ('î', 'i'), ('ï', 'i'), ('ñ', 'n'),
   ('ò', 'o'), ('ó', 'o'), ('ô', 'o'), ('õ', 'o'), ('ö', 'o'),
   ('ù', 'u'), ('ú', 'u'), ('û', 'u'), ('ü', 'u'), ('ý', 'y'),
   ('À', 'A'), ('Á', 'A'), ('Â', 'A'), ('Ã', 'A'), ('Ä', 'A'), ('Å', 'A'),
   ('Ç', 'C'), ('È', 'E'), ('É', 'E'), ('Ê', 'E'), ('Ë', 'E'),
   ('Ì', 'I'), ('Í', 'I'), ('Î', 'I'), ('Ï', 'I'), ('Ñ', 'N'),
   ('Ò', 'O'), ('Ó', 'O'), ('Ô', 'O'), ('Õ', 'O'), ('Ö', 'O'),
   ('Ù', 'U'), ('Ú', 'U'), ('Û', 'U'), ('Ü', 'U'), ('Ý', 'Y')]

end WhisperCli

namespace VideoTranscriber

/-! ## The interactive front-end (video_transcriber.py) -/

/-- Line 17: the supported video extensions. -/
def SUPPORTED_FORMATS : List String :=
  [".mp4", ".avi", ".mkv", ".mov", ".wmv", ".flv", ".webm", ".m4v"]

/-- ASCII lowercasing of one character (model of Python `str.lower` on the
ASCII range; the extension comparison only involves ASCII). -/
def lowerChar (c : Char) : Char :=
  if 65 ≤ c.toNat ∧ c.toNat ≤ 90 then Char.ofNat (c.toNat + 32) else c

/-- Python `file.lower()`. -/
def lowerStr (s : String) : String :=
  ⟨s.data.map lowerChar⟩

/-- Insert into a sorted list of strings (`sorted` is modelled by insertion
sort with lexicographic string order). -/
def insertSorted (s : String) : List String → List String
  | [] => [s]
  | t :: rest => if s ≤ t then s :: t :: rest else t :: insertSorted s rest

/-- Python `sorted` on strings. -/
def sortStrings (l : List String) : List String :=
  l.foldr insertSorted []

/-- The file system visible to the front-end: which paths exist and what a
directory listing returns. -/
structure FileSystem where
  pathExists : String → Bool
  listDir : String → List String

/-- `get_video_files` (lines 75-85): empty for a falsy or non-existent
folder path, otherwise the sorted video files of the listing. -/
def get_video_files (fs : FileSystem) (folderPath : String) : List String :=
  if folderPath = "" ∨ fs.pathExists folderPath = false then []
  else
    sortStrings ((fs.listDir folderPath).filter
      (fun f => SUPPORTED_FORMATS.any (fun ext => ext.data.isSuffixOf (lowerStr f).data)))

/-- The `selected_video` value of `main` (lines 197-214): `none` when no
folder is given, when the folder does not exist, or when it has no video
files; otherwise the user's choice among the found files. -/
def selectedVideo (fs : FileSystem) (folderPath : String) (choice : ℕ) : Option String :=
  if folderPath = "" then none
  else if fs.pathExists folderPath then (get_video_files fs folderPath).get? choice
  else none

/-- Does pressing the start button invoke `transcribe_video` (lines
277-301)?  Only with a selected video and a valid output folder. -/
def startInvokesModel (fs : FileSystem) (folderPath : String) (choice : ℕ)
    (outputFolder : String) : Bool :=
  match selectedVideo fs folderPath choice with
  | none => false
  | some _ => outputFolder != "" && fs.pathExists outputFolder

/-- Is an error reported for the folder path (line 211, "Folder path does
not exist")? -/
def folderErrorShown (fs : FileSystem) (folderPath : String) : Bool :=
  folderPath != "" && !fs.pathExists folderPath

/-! ## Subtitle formatting (lines 87-129) -/

/-- Zero-padded decimal rendering of an integer to a minimal width
(Python `f"{n:02d}"` / `f"{n:03d}"`; for a negative value the sign precedes
the padding, as in Python). -/
def padInt (w : ℕ) (n : ℤ) : List Char :=
  if n < 0 then '-' :: WhisperCli.padZeros (w - 1) (WhisperCli.natToChars n.natAbs)
  else WhisperCli.padZeros w (WhisperCli.natToChars n.toNat)

/-- Python float `a % b` for positive `b`: `a - b * ⌊a / b⌋`. -/
def pyMod (a b : ℚ) : ℚ :=
  a - b * ⌊a / b⌋

/-- `format_time` (lines 87-93): `HH:MM:SS,mmm` for SubRip.  `int(x // y)`
and `int(x % y)` for non-negative floats are floors, and `seconds % 1` lies
in `[0, 1)`, so `int((seconds % 1) * 1000)` is a floor too. -/
def format_time (seconds : ℚ) : String :=
  ⟨padInt 2 ⌊seconds / 3600⌋ ++ ':' :: padInt 2 ⌊pyMod seconds 3600 / 60⌋
    ++ ':' :: padInt 2 ⌊pyMod seconds 60⌋
    ++ ',' :: padInt 3 ⌊pyMod seconds 1 * 1000⌋⟩

/-- `format_time_vtt` (lines 95-101): `HH:MM:SS.mmm` for WebVTT. -/
def format_time_vtt (seconds : ℚ) : String :=
  ⟨padInt 2 ⌊seconds / 3600⌋ ++ ':' :: padInt 2 ⌊pyMod seconds 3600 / 60⌋
    ++ ':' :: padInt 2 ⌊pyMod seconds 60⌋
    ++ '.' :: padInt 3 ⌊pyMod seconds 1 * 1000⌋⟩

/-- One timed transcript segment (keys `start`, `end`, `text`). -/
structure Segment where
  start : ℚ
  stop : ℚ
  text : String

/-- A raw transcription result as `save_transcription` consumes it:
`result['text']` and `result['segments']`. -/
structure TResult where
  text : String
  segments : List Segment

/-- The requested output format tag. -/
inductive OutputFormat where
  | txt
  | srt
  | vtt
  | json

/-- One SubRip entry (line 116): `f"{i}\n{start} --> {end}\n{text}\n\n"`
with the segment text stripped. -/
def srtEntry (i : ℕ) (seg : Segment) : String :=
  WhisperCli.natToStr i ++ "\n" ++ format_time seg.start ++ " --> "
    ++ format_time seg.stop ++ "\n" ++ (⟨WhisperCli.stripPy seg.text.data⟩ : String) ++ "\n\n"

/-- One WebVTT entry (line 125). -/
def vttEntry (seg : Segment) : String :=
  format_time_vtt seg.start ++ " --> " ++ format_time_vtt seg.stop ++ "\n"
    ++ (⟨WhisperCli.stripPy seg.text.data⟩ : String) ++ "\n\n"

/-- The text content `save_transcription` (lines 103-129) writes to the
output file for each format.  The `json` branch dumps the whole raw result
dict via `json.dump` (indent 2); no claim depends on its exact text, and it
is not modelled (`none`). -/
def save_transcription (result : TResult) (fmt : OutputFormat) : Option String :=
  match fmt with
  | .txt => some result.text
  | .srt =>
    some (String.join ((result.segments.enum.map
      (fun p => srtEntry (p.1 + 1) p.2))))
  | .vtt =>
    some ("WEBVTT\n\n" ++ String.join (result.segments.map vttEntry))
  | .json => none

end VideoTranscriber

/-!
# Theorems

Supporting lemmas first, then one theorem (plus witness where required) per
claim C1-C10.
-/

namespace WhisperCli

/-- Characters of the collapsed string come from the input or are the space
that replaces a whitespace run. -/
theorem mem_collapseWsGo {c : Char} (l : List Char) : ∀ b : Bool,
    c ∈ collapseWsGo b l → c ∈ l ∨ c = ' ' := by
  induction l with
  | nil => simp [collapseWsGo]
  | cons d rest ih =>
    intro b h
    by_cases hd : isPySpace d
    · cases b with
      | true =>
        simp only [collapseWsGo, hd, if_true] at h
        rcases ih true h with h2 | h2
        · exact Or.inl (List.mem_cons_of_mem d h2)
        · exact Or.inr h2
      | false =>
        simp only [collapseWsGo, hd, if_true] at h
        rcases List.mem_cons.mp h with h2 | h2
        · exact Or.inr h2
        · rcases ih true h2 with h3 | h3
          · exact Or.inl (List.mem_cons_of_mem d h3)
          · exact Or.inr h3
    · simp only [collapseWsGo, hd, if_false] at h
      rcases List.mem_cons.mp h with h2 | h2
      · exact Or.inl (h2 ▸ List.mem_cons_self d rest)
      · rcases ih false h2 with h3 | h3
        · exact Or.inl (List.mem_cons_of_mem d h3)
        · exact Or.inr h3

/-- Stripping only removes characters. -/
theorem mem_stripPy {c : Char} {l : List Char} (h : c ∈ stripPy l) : c ∈ l := by
  unfold stripPy at h
  rw [List.mem_reverse] at h
  have h2 := (List.dropWhile_suffix isPySpace).subset h
  rw [List.mem_reverse] at h2
  exact (List.dropWhile_suffix isPySpace).subset h2

end WhisperCli

/-- Claim C4: for every normalization function and every input string, every
character of the sanitizer's output satisfies the declared allow-list
predicate (printable ASCII below 127, the fixed lowercase and uppercase
accent lists, or whitespace). -/
theorem c4_sanitizer_output_allowed (normalize : List Char → List Char) (l : List Char) :
    ∀ c ∈ WhisperCli.sanitize_for_json normalize l, WhisperCli.isAllowedChar c = true := by
  intro c hc
  have h1 := WhisperCli.mem_stripPy hc
  rcases WhisperCli.mem_collapseWsGo _ false h1 with h2 | h2
  · exact List.of_mem_filter h2
  · subst h2; decide

/-- Witness for C4 at a concrete normalization, input and character. -/
theorem c4_witness :
    'a' ∈ WhisperCli.sanitize_for_json id ['a'] ∧ WhisperCli.isAllowedChar 'a' = true :=
  ⟨by decide, c4_sanitizer_output_allowed id ['a'] 'a' (by decide)⟩

namespace WhisperCli

/-- Relation: no two adjacent whitespace characters. -/
def spaceRel (a b : Char) : Prop :=
  isPySpace a = false ∨ isPySpace b = false

/-- Turn a `contains` fact into membership. -/
theorem mem_of_contains {l : List Char} {c : Char} (h : l.contains c = true) : c ∈ l :=
  List.mem_of_elem_eq_true h

/-- Every allow-listed character is outside the control-character class. -/
theorem allowed_not_ctrl {c : Char} (h : isAllowedChar c = true) : isCtrlChar c = false := by
  have hlo : ∀ d ∈ lowerAccents, isCtrlChar d = false := by decide
  have hup : ∀ d ∈ upperAccents, isCtrlChar d = false := by decide
  have hws : ∀ d ∈ wsAllow, isCtrlChar d = false := by decide
  simp only [isAllowedChar, Bool.or_eq_true, Bool.and_eq_true, decide_eq_true_eq] at h
  rcases h with ((⟨h1, h2⟩ | h3) | h4) | h5
  · simp only [isCtrlChar, Bool.or_eq_false_iff, Bool.and_eq_false_iff,
      decide_eq_false_iff_not, decide_eq_true_eq]
    omega
  · exact hlo c (mem_of_contains h3)
  · exact hup c (mem_of_contains h4)
  · exact hws c (mem_of_contains h5)

/-- No allow-listed character is a replacement-table key. -/
theorem allowed_not_key {c : Char} (h : isAllowedChar c = true) :
    ∀ p ∈ replacements, c ≠ p.1 := by
  have hk : ∀ p ∈ replacements, isAllowedChar p.1 = false := by decide
  intro p hp heq
  have h2 := hk p hp
  rw [← heq] at h2
  rw [h] at h2
  cases h2

/-- A map that fixes every element fixes the list. -/
theorem map_eq_self_of_fix {l : List Char} {f : Char → Char} (h : ∀ a ∈ l, f a = a) :
    l.map f = l := by
  induction l with
  | nil => rfl
  | cons d rest ih =>
    simp only [List.map_cons, h d (List.mem_cons_self d rest)]
    rw [ih (fun a ha => h a (List.mem_cons_of_mem d ha))]

/-- Control-character removal fixes a fully allow-listed string. -/
theorem removeControls_eq_self {l : List Char} (h : ∀ c ∈ l, isAllowedChar c = true) :
    removeControls l = l := by
  apply map_eq_self_of_fix
  intro a ha
  rw [allowed_not_ctrl (h a ha)]
  rfl

/-- Replacing a character that does not occur is the identity. -/
theorem replaceChar_eq_self {old : Char} {new l : List Char} (h : ∀ d ∈ l, d ≠ old) :
    replaceChar old new l = l := by
  induction l with
  | nil => rfl
  | cons d rest ih =>
    simp only [replaceChar]
    rw [if_neg (h d (List.mem_cons_self d rest))]
    rw [ih (fun a ha => h a (List.mem_cons_of_mem d ha))]
    rfl

/-- The replacement table fixes a fully allow-listed string. -/
theorem applyReplacements_eq_self {l : List Char} (h : ∀ c ∈ l, isAllowedChar c = true) :
    applyReplacements l = l := by
  have general : ∀ rs : List (Char × List Char),
      (∀ p ∈ rs, ∀ d ∈ l, d ≠ p.1) →
      rs.foldl (fun acc p => replaceChar p.1 p.2 acc) l = l := by
    intro rs
    induction rs with
    | nil => intro _; rfl
    | cons q qs ih =>
      intro hq
      simp only [List.foldl_cons]
      rw [replaceChar_eq_self (hq q (List.mem_cons_self q qs))]
      exact ih (fun p hp => hq p (List.mem_cons_of_mem q hp))
  exact general replacements (fun p hp d hd => allowed_not_key (h d hd) p hp)

/-- Filtering fixes a fully allow-listed string. -/
theorem filterAllowed_eq_self {l : List Char} (h : ∀ c ∈ l, isAllowedChar c = true) :
    filterAllowed l = l :=
  List.filter_eq_self.mpr h

/-- The head of a `dropWhile` result falsifies the predicate. -/
theorem head_dropWhile_not {p : Char → Bool} :
    ∀ {l : List Char} {c : Char}, (l.dropWhile p).head? = some c → p c = false := by
  intro l
  induction l with
  | nil => intro c h; simp [List.dropWhile] at h
  | cons d rest ih =>
    intro c h
    by_cases hd : p d
    · rw [List.dropWhile_cons_of_pos hd] at h
      exact ih h
    · rw [List.dropWhile_cons_of_neg hd] at h
      simp only [List.head?_cons, Option.some.injEq] at h
      subst h
      exact Bool.eq_false_iff.mpr hd

/-- `dropWhile` is the identity when the head falsifies the predicate. -/
theorem dropWhile_eq_self_of_head {p : Char → Bool} {l : List Char}
    (h : ∀ c, l.head? = some c → p c = false) : l.dropWhile p = l := by
  cases l with
  | nil => rfl
  | cons d rest =>
    exact List.dropWhile_cons_of_neg (by simp [h d rfl])

/-- The first character of a stripped string is not whitespace. -/
theorem stripPy_head {l : List Char} {c : Char} (h : (stripPy l).head? = some c) :
    isPySpace c = false := by
  unfold stripPy at h
  rw [List.head?_reverse] at h
  obtain ⟨t, ht⟩ := @List.dropWhile_suffix Char (l.dropWhile isPySpace).reverse isPySpace
  have hne : (l.dropWhile isPySpace).reverse.dropWhile isPySpace ≠ [] := by
    intro hnil
    rw [hnil] at h
    simp at h
  have : ((l.dropWhile isPySpace).reverse).getLast? = some c := by
    rw [← ht, List.getLast?_append]
    rw [h]
    rfl
  rw [List.getLast?_reverse] at this
  exact head_dropWhile_not this

/-- The last character of a stripped string is not whitespace. -/
theorem stripPy_getLast {l : List Char} {c : Char} (h : (stripPy l).getLast? = some c) :
    isPySpace c = false := by
  unfold stripPy at h
  rw [List.getLast?_reverse] at h
  exact head_dropWhile_not h

/-- Stripping is the identity when neither end is whitespace. -/
theorem stripPy_eq_self {l : List Char}
    (hh : ∀ c, l.head? = some c → isPySpace c = false)
    (hl : ∀ c, l.getLast? = some c → isPySpace c = false) : stripPy l = l := by
  unfold stripPy
  rw [dropWhile_eq_self_of_head hh]
  rw [dropWhile_eq_self_of_head (fun c hc => hl c (by rwa [List.head?_reverse] at hc))]
  exact List.reverse_reverse l

/-- The head of an in-run collapse is never whitespace. -/
theorem collapse_head_true :
    ∀ (l : List Char) {c : Char}, (collapseWsGo true l).head? = some c → isPySpace c = false := by
  intro l
  induction l with
  | nil => intro c h; simp [collapseWsGo] at h
  | cons d rest ih =>
    intro c h
    by_cases hd : isPySpace d
    · simp only [collapseWsGo, hd, if_true] at h
      exact ih h
    · simp only [collapseWsGo, hd, Bool.false_eq_true, if_false, List.head?_cons,
        Option.some.injEq] at h
      subst h
      exact Bool.eq_false_iff.mpr hd

/-- Collapsed output never has two adjacent whitespace characters. -/
theorem chain_collapse (l : List Char) : ∀ b : Bool, List.Chain' spaceRel (collapseWsGo b l) := by
  induction l with
  | nil => intro b; simp [collapseWsGo]
  | cons d rest ih =>
    intro b
    by_cases hd : isPySpace d
    · cases b with
      | true => simpa only [collapseWsGo, hd, if_true] using ih true
      | false =>
        simp only [collapseWsGo, hd, Bool.false_eq_true, if_true, if_false]
        rw [List.chain'_cons']
        refine ⟨fun y hy => Or.inr (collapse_head_true rest hy), ih true⟩
    · simp only [collapseWsGo, hd, Bool.false_eq_true, if_false]
      rw [List.chain'_cons']
      refine ⟨fun y _ => Or.inl (Bool.eq_false_iff.mpr hd), ih false⟩

/-- Every whitespace character of collapsed output is the plain space. -/
theorem collapse_all_spaces (l : List Char) :
    ∀ (b : Bool) (c : Char), c ∈ collapseWsGo b l → isPySpace c = true → c = ' ' := by
  induction l with
  | nil => intro b c h; simp [collapseWsGo] at h
  | cons d rest ih =>
    intro b c h hc
    by_cases hd : isPySpace d
    · cases b with
      | true =>
        simp only [collapseWsGo, hd, if_true] at h
        exact ih true c h hc
      | false =>
        simp only [collapseWsGo, hd, Bool.false_eq_true, if_true, if_false,
          List.mem_cons] at h
        rcases h with h | h
        · exact h
        · exact ih true c h hc
    · simp only [collapseWsGo, hd, Bool.false_eq_true, if_false, List.mem_cons] at h
      rcases h with h | h
      · rw [h] at hc
        rw [Bool.eq_false_iff.mpr hd] at hc
        cases hc
      · exact ih false c h hc

/-- Collapsing is the identity on a string whose whitespace is all plain
spaces with no two adjacent. -/
theorem collapse_eq_self :
    ∀ l : List Char, (∀ c ∈ l, isPySpace c = true → c = ' ') →
      List.Chain' spaceRel l → collapseWsGo false l = l := by
  intro l
  induction l with
  | nil => intro _ _; rfl
  | cons d rest ih =>
    intro hsp hch
    by_cases hd : isPySpace d
    · have hd' : d = ' ' := hsp d (List.mem_cons_self d rest) hd
      rw [List.chain'_cons'] at hch
      obtain ⟨hhead, hchrest⟩ := hch
      simp only [collapseWsGo, hd, if_true]
      cases rest with
      | nil => simp [collapseWsGo, hd']
      | cons e r =>
        have he : isPySpace e = false := by
          rcases hhead e rfl with h | h
          · rw [hd] at h; cases h
          · exact h
        have hrest := ih (fun c hc h2 => hsp c (List.mem_cons_of_mem d hc) h2) hchrest
        simp only [collapseWsGo, he, if_false] at hrest ⊢
        rw [hd']
        exact congrArg (' ' :: ·) hrest
    · simp only [collapseWsGo, hd, if_false]
      rw [List.chain'_cons'] at hch
      exact congrArg (d :: ·) (ih (fun c hc h2 => hsp c (List.mem_cons_of_mem d hc) h2) hch.2)

/-- Every character of sanitizer output is allow-listed (shared helper). -/
theorem sanitize_mem_allowed (normalize : List Char → List Char) (l : List Char) :
    ∀ c ∈ sanitize_for_json normalize l, isAllowedChar c = true := by
  intro c hc
  have h1 := mem_stripPy hc
  rcases mem_collapseWsGo _ false h1 with h2 | h2
  · exact List.of_mem_filter h2
  · subst h2; decide

/-- Every whitespace character of sanitizer output is the plain space. -/
theorem sanitize_all_spaces (normalize : List Char → List Char) (l : List Char) :
    ∀ c ∈ sanitize_for_json normalize l, isPySpace c = true → c = ' ' := by
  intro c hc hsp
  exact collapse_all_spaces _ false c (mem_stripPy hc) hsp

/-- Stripping preserves the no-adjacent-whitespace property. -/
theorem chain_stripPy {m : List Char} (h : List.Chain' spaceRel m) :
    List.Chain' spaceRel (stripPy m) := by
  have symm : ∀ k : List Char, List.Chain' spaceRel k → List.Chain' spaceRel k.reverse := by
    intro k hk
    rw [List.chain'_reverse]
    exact hk.imp (fun a b hab => hab.symm)
  have h1 := h.suffix (List.dropWhile_suffix isPySpace)
  have h2 := symm _ h1
  have h3 := h2.suffix (List.dropWhile_suffix isPySpace)
  exact symm _ h3

/-- Sanitizer output never has two adjacent whitespace characters. -/
theorem sanitize_chain (normalize : List Char → List Char) (l : List Char) :
    List.Chain' spaceRel (sanitize_for_json normalize l) :=
  chain_stripPy (chain_collapse _ false)

end WhisperCli

/-- Claim C1: the sanitizer is idempotent.  The NFKD step is external
Unicode library code; the hypothesis `hfix` records the property it
actually has, namely that already-sanitized text (printable ASCII plus
non-decomposable accents, no combining marks) is NFKD-invariant. -/
theorem c1_sanitize_idempotent (normalize : List Char → List Char) (x : List Char)
    (hfix : normalize (WhisperCli.sanitize_for_json normalize x) =
      WhisperCli.sanitize_for_json normalize x) :
    WhisperCli.sanitize_for_json normalize (WhisperCli.sanitize_for_json normalize x) =
      WhisperCli.sanitize_for_json normalize x := by
  have hall := WhisperCli.sanitize_mem_allowed normalize x
  have hsp := WhisperCli.sanitize_all_spaces normalize x
  have hch := WhisperCli.sanitize_chain normalize x
  have hhead : ∀ c, (WhisperCli.sanitize_for_json normalize x).head? = some c →
      WhisperCli.isPySpace c = false := fun c hc => WhisperCli.stripPy_head hc
  have hlast : ∀ c, (WhisperCli.sanitize_for_json normalize x).getLast? = some c →
      WhisperCli.isPySpace c = false := fun c hc => WhisperCli.stripPy_getLast hc
  show WhisperCli.stripPy (WhisperCli.collapseWs (WhisperCli.filterAllowed
    (WhisperCli.applyReplacements (WhisperCli.removeControls
      (normalize (WhisperCli.sanitize_for_json normalize x)))))) = _
  rw [hfix]
  rw [WhisperCli.removeControls_eq_self hall]
  rw [WhisperCli.applyReplacements_eq_self hall]
  rw [WhisperCli.filterAllowed_eq_self hall]
  show WhisperCli.stripPy (WhisperCli.collapseWsGo false _) = _
  rw [WhisperCli.collapse_eq_self _ hsp hch]
  exact WhisperCli.stripPy_eq_self hhead hlast

/-- Witness for C1 at a concrete normalization function and input. -/
theorem c1_witness :
    id (WhisperCli.sanitize_for_json id ['a', ' ', ' ', 'b']) =
      WhisperCli.sanitize_for_json id ['a', ' ', ' ', 'b'] ∧
    WhisperCli.sanitize_for_json id (WhisperCli.sanitize_for_json id ['a', ' ', ' ', 'b']) =
      WhisperCli.sanitize_for_json id ['a', ' ', ' ', 'b'] :=
  ⟨rfl, c1_sanitize_idempotent id ['a', ' ', ' ', 'b'] rfl⟩

namespace WhisperCli

/-- A successful association-list lookup yields a member. -/
theorem mem_of_lookup {c : Char} {l : List Char} (h : List.lookup c nfkdTable = some l) :
    (c, l) ∈ nfkdTable := by
  rw [List.lookup_eq_some_iff] at h
  obtain ⟨l₁, l₂, heq, _⟩ := h
  rw [heq]
  exact List.mem_append_right l₁ (List.mem_cons_self _ l₂)

/-- The NFKD model never outputs a decomposable accented letter: table
entries decompose to base letters plus combining marks, and every
decomposable letter is in the table. -/
theorem nfkdChar_not_decomp {c d : Char} (h : d ∈ nfkdChar c) :
    d ∉ decomposableAccents := by
  have htab : ∀ p ∈ nfkdTable, ∀ d ∈ p.2, d ∉ decomposableAccents := by decide
  have hdom : ∀ c ∈ decomposableAccents, (List.lookup c nfkdTable).isSome := by decide
  unfold nfkdChar at h
  cases hl : List.lookup c nfkdTable with
  | some l =>
    rw [hl] at h
    exact htab _ (mem_of_lookup hl) d h
  | none =>
    rw [hl] at h
    simp only [List.mem_singleton] at h
    subst h
    intro hmem
    have := hdom d hmem
    rw [hl] at this
    cases this

/-- Characters of control removal come from the input or are spaces. -/
theorem mem_removeControls {c : Char} {l : List Char} (h : c ∈ removeControls l) :
    c ∈ l ∨ c = ' ' := by
  unfold removeControls at h
  obtain ⟨a, ha, heq⟩ := List.mem_map.mp h
  by_cases hc : isCtrlChar a
  · rw [if_pos hc] at heq
    exact Or.inr heq.symm
  · rw [if_neg hc] at heq
    exact Or.inl (heq ▸ ha)

/-- Characters of a single replacement come from the input or the
replacement value. -/
theorem mem_replaceChar {c old : Char} {new : List Char} :
    ∀ {l : List Char}, c ∈ replaceChar old new l → c ∈ l ∨ c ∈ new := by
  intro l
  induction l with
  | nil => intro h; cases h
  | cons d rest ih =>
    intro h
    unfold replaceChar at h
    rcases List.mem_append.mp h with h1 | h1
    · by_cases hd : d = old
      · rw [if_pos hd] at h1
        exact Or.inr h1
      · rw [if_neg hd] at h1
        simp only [List.mem_singleton] at h1
        exact Or.inl (h1 ▸ List.mem_cons_self d rest)
    · rcases ih h1 with h2 | h2
      · exact Or.inl (List.mem_cons_of_mem d h2)
      · exact Or.inr h2

/-- Characters after all replacements come from the input or from some
replacement value. -/
theorem mem_applyReplacements {c : Char} {l : List Char} (h : c ∈ applyReplacements l) :
    c ∈ l ∨ ∃ p ∈ replacements, c ∈ p.2 := by
  have general : ∀ (rs : List (Char × List Char)) (m : List Char),
      c ∈ rs.foldl (fun acc p => replaceChar p.1 p.2 acc) m →
      c ∈ m ∨ ∃ p ∈ rs, c ∈ p.2 := by
    intro rs
    induction rs with
    | nil => intro m h2; exact Or.inl h2
    | cons q qs ih =>
      intro m h2
      rcases ih (replaceChar q.1 q.2 m) h2 with h3 | h3
      · rcases mem_replaceChar h3 with h4 | h4
        · exact Or.inl h4
        · exact Or.inr ⟨q, List.mem_cons_self q qs, h4⟩
      · obtain ⟨p, hp, hcp⟩ := h3
        exact Or.inr ⟨p, List.mem_cons_of_mem q hp, hcp⟩
  exact general replacements l h

/-- No character of sanitizer output (with the NFKD model) is a
decomposable accented letter. -/
theorem sanitize_no_decomposable {x : List Char} {c : Char}
    (h : c ∈ sanitize_for_json nfkdNormalize x) : c ∉ decomposableAccents := by
  have hrepl : ∀ p ∈ replacements, ∀ d ∈ p.2, d ∉ decomposableAccents := by decide
  have hspace : (' ' : Char) ∉ decomposableAccents := by decide
  have h1 := mem_stripPy h
  rcases mem_collapseWsGo _ false h1 with h2 | h2
  · have h3 := List.mem_of_mem_filter h2
    rcases mem_applyReplacements h3 with h4 | h4
    · rcases mem_removeControls h4 with h5 | h5
      · obtain ⟨a, _, hca⟩ := List.mem_flatMap.mp h5
        exact nfkdChar_not_decomp hca
      · exact h5 ▸ hspace
    · obtain ⟨p, hp, hcp⟩ := h4
      exact hrepl p hp c hcp
  · exact h2 ▸ hspace

end WhisperCli

/-- Claim C10: with the NFKD model, (i) every decomposable accented letter
of the allow-list is reduced by the sanitizer to its base ASCII letter,
(ii) no decomposable accented letter ever appears in sanitizer output, and
(iii) the non-decomposable allow-list letters `æ ø Æ Ø` do survive. -/
theorem c10_nfkd_reduces_accents :
    (∀ p ∈ WhisperCli.accentBasePairs,
      WhisperCli.sanitize_for_json WhisperCli.nfkdNormalize [p.1] = [p.2]) ∧
    (∀ (x : List Char) (c : Char), c ∈ WhisperCli.sanitize_for_json WhisperCli.nfkdNormalize x →
      c ∉ WhisperCli.decomposableAccents) ∧
    (∀ c ∈ (['æ', 'ø', 'Æ', 'Ø'] : List Char),
      WhisperCli.sanitize_for_json WhisperCli.nfkdNormalize [c] = [c]) :=
  ⟨by decide, fun _ _ h => WhisperCli.sanitize_no_decomposable h, by decide⟩

/-- Witness for C10 at a concrete letter and a concrete input. -/
theorem c10_witness :
    ('é', 'e') ∈ WhisperCli.accentBasePairs ∧
    WhisperCli.sanitize_for_json WhisperCli.nfkdNormalize ['é'] = ['e'] ∧
    ('e' ∈ WhisperCli.sanitize_for_json WhisperCli.nfkdNormalize ['é', 'a'] →
      'e' ∉ WhisperCli.decomposableAccents) :=
  ⟨by decide, c10_nfkd_reduces_accents.1 ('é', 'e') (by decide),
    c10_nfkd_reduces_accents.2.1 ['é', 'a'] 'e'⟩

namespace WhisperCli

/-- Truncation agrees with the floor on non-negative rationals. -/
theorem pyInt_eq_floor {q : ℚ} (h : 0 ≤ q) : pyInt q = ⌊q⌋ :=
  if_pos h

/-- Every multiplier is positive. -/
theorem time_multipliers_pos (m : String) : 0 < time_multipliers m := by
  unfold time_multipliers
  split_ifs <;> norm_num

/-- There are always at least ten simulated steps. -/
theorem ten_le_steps (d : ℚ) (m : String) : 10 ≤ steps d m := by
  have h : (10 : ℤ) ≤ stepsZ d m := le_max_left _ _
  have h2 := Int.toNat_le_toNat h
  exact h2

/-- The raw progress of a step within the run lies in `[0, 1)`. -/
theorem raw_progress_bounds {s i : ℕ} (hs : 0 < s) (hi : i < s) :
    0 ≤ raw_progress s i ∧ raw_progress s i < 1 := by
  constructor
  · exact div_nonneg (Nat.cast_nonneg i) (Nat.cast_nonneg s)
  · unfold raw_progress
    rw [div_lt_one (by exact_mod_cast hs)]
    exact_mod_cast hi

/-- The eased progress value of a step within the run lies in `[0, 1)`. -/
theorem simulation_progress_bounds {s i : ℕ} (hs : 0 < s) (hi : i < s) :
    0 ≤ simulation_progress s i ∧ simulation_progress s i < 1 := by
  obtain ⟨h0, h1⟩ := raw_progress_bounds hs hi
  unfold simulation_progress
  constructor
  · exact mul_nonneg h0 (by linarith)
  · nlinarith

/-- The eased progress value is monotone in the step index. -/
theorem simulation_progress_mono {s i j : ℕ} (hs : 0 < s) (hij : i ≤ j) (hj : j < s) :
    simulation_progress s i ≤ simulation_progress s j := by
  obtain ⟨hi0, hi1⟩ := raw_progress_bounds hs (lt_of_le_of_lt hij hj)
  obtain ⟨hj0, hj1⟩ := raw_progress_bounds hs hj
  have hr : raw_progress s i ≤ raw_progress s j :=
    div_le_div_of_nonneg_right (by exact_mod_cast hij) (Nat.cast_nonneg s)
  unfold simulation_progress
  nlinarith

/-- The emitted percentage for a progress value in `[0, 1)` lies in `[50, 89]`. -/
theorem emittedPercent_bounds {p : ℚ} (h0 : 0 ≤ p) (h1 : p < 1) :
    50 ≤ emittedPercent p ∧ emittedPercent p ≤ 89 := by
  unfold emittedPercent
  rw [pyInt_eq_floor (by linarith)]
  constructor
  · have : (0 : ℤ) ≤ ⌊p * 40⌋ := Int.floor_nonneg.mpr (by linarith)
    omega
  · have : ⌊p * 40⌋ < 40 := by
      rw [Int.floor_lt]
      push_cast
      linarith
    omega

/-- The emitted percentage is monotone in the progress value (for
non-negative values). -/
theorem emittedPercent_mono {p q : ℚ} (h0 : 0 ≤ p) (hpq : p ≤ q) :
    emittedPercent p ≤ emittedPercent q := by
  unfold emittedPercent
  rw [pyInt_eq_floor (by linarith), pyInt_eq_floor (by linarith)]
  have : ⌊p * 40⌋ ≤ ⌊q * 40⌋ := Int.floor_le_floor (by linarith)
  omega

end WhisperCli

/-- Claim C3: within one simulated run the emitted percentages are
monotonically non-decreasing, and every emitted percentage lies in
`[0, 100]`. -/
theorem c3_progress_monotone_bounded (d : ℚ) (m : String) :
    List.Chain' (· ≤ ·) (WhisperCli.simulatedPercents d m) ∧
    (WhisperCli.simulatedPercents d m).all
      (fun v => decide (0 ≤ v) && decide (v ≤ 100)) = true := by
  have hs : 0 < WhisperCli.steps d m := lt_of_lt_of_le (by norm_num) (WhisperCli.ten_le_steps d m)
  constructor
  · unfold WhisperCli.simulatedPercents
    rw [List.chain'_map]
    obtain ⟨s', hs'⟩ : ∃ s', WhisperCli.steps d m = s' + 1 :=
      ⟨WhisperCli.steps d m - 1, by omega⟩
    rw [hs']
    rw [List.chain'_range_succ]
    intro k hk
    rw [← hs']
    apply WhisperCli.emittedPercent_mono
    · exact (WhisperCli.simulation_progress_bounds hs (by omega)).1
    · exact WhisperCli.simulation_progress_mono hs (by omega) (by omega)
  · rw [List.all_eq_true]
    intro v hv
    unfold WhisperCli.simulatedPercents at hv
    obtain ⟨i, hi, rfl⟩ := List.mem_map.mp hv
    rw [List.mem_range] at hi
    obtain ⟨h0, h1⟩ := WhisperCli.simulation_progress_bounds hs hi
    obtain ⟨hb1, hb2⟩ := WhisperCli.emittedPercent_bounds h0 h1
    simp only [Bool.and_eq_true, decide_eq_true_eq]
    omega

/-- Claim C5: the step count is `max(10, ⌊estimated_time / 5⌋)` with
`estimated_time = duration * multiplier(model)`; the progress value at step
`i` is `p * (2 - p)` for `p = i / steps`; `tiny` has the smallest and
`large` the largest multiplier, with a default of `0.5` for unknown tags;
and the per-step progress increments strictly decrease (faster early,
slower near completion). -/
theorem c5_steps_and_ease (d : ℚ) (m : String) (hd : 0 ≤ d) :
    WhisperCli.stepsZ d m = max 10 ⌊d * WhisperCli.time_multipliers m / 5⌋ ∧
    (∀ i : ℕ, WhisperCli.simulation_progress (WhisperCli.steps d m) i
        = WhisperCli.raw_progress (WhisperCli.steps d m) i
          * (2 - WhisperCli.raw_progress (WhisperCli.steps d m) i)) ∧
    (∀ m' : String, WhisperCli.time_multipliers "tiny" ≤ WhisperCli.time_multipliers m' ∧
        WhisperCli.time_multipliers m' ≤ WhisperCli.time_multipliers "large") ∧
    (m ∉ WhisperCli.knownModels → WhisperCli.time_multipliers m = 1/2) ∧
    (∀ i : ℕ, i + 2 < WhisperCli.steps d m →
      WhisperCli.simulation_progress (WhisperCli.steps d m) (i + 2)
          - WhisperCli.simulation_progress (WhisperCli.steps d m) (i + 1)
        < WhisperCli.simulation_progress (WhisperCli.steps d m) (i + 1)
          - WhisperCli.simulation_progress (WhisperCli.steps d m) i) := by
  refine ⟨?_, fun i => rfl, ?_, ?_, ?_⟩
  · unfold WhisperCli.stepsZ
    rw [WhisperCli.pyInt_eq_floor]
    · rfl
    · exact div_nonneg (mul_nonneg hd (WhisperCli.time_multipliers_pos m).le) (by norm_num)
  · intro m'
    have htiny : WhisperCli.time_multipliers "tiny" = 1/10 := rfl
    have hlarge : WhisperCli.time_multipliers "large" = 3/2 := rfl
    rw [htiny, hlarge]
    constructor
    · unfold WhisperCli.time_multipliers
      split_ifs <;> norm_num
    · unfold WhisperCli.time_multipliers
      split_ifs <;> norm_num
  · intro hm
    simp only [WhisperCli.knownModels, List.mem_cons, List.mem_singleton, not_or] at hm
    obtain ⟨h1, h2, h3, h4, h5⟩ := hm
    simp [WhisperCli.time_multipliers, h1, h2, h3, h4, h5]
  · intro i hi
    set s := WhisperCli.steps d m with hs
    have hS : (0 : ℚ) < (s : ℚ) := by
      have := WhisperCli.ten_le_steps d m
      rw [← hs] at this
      exact_mod_cast lt_of_lt_of_le (by norm_num) this
    unfold WhisperCli.simulation_progress WhisperCli.raw_progress
    push_cast
    have h1 : ((i:ℚ)+2)/(s:ℚ)*(2-((i:ℚ)+2)/(s:ℚ)) - (((i:ℚ)+1)/(s:ℚ))*(2-((i:ℚ)+1)/(s:ℚ))
        = (2*(s:ℚ) - (2*(i:ℚ)+3)) / (s:ℚ)^2 := by
      field_simp
      ring
    have h2 : ((i:ℚ)+1)/(s:ℚ)*(2-((i:ℚ)+1)/(s:ℚ)) - ((i:ℚ)/(s:ℚ))*(2-(i:ℚ)/(s:ℚ))
        = (2*(s:ℚ) - (2*(i:ℚ)+1)) / (s:ℚ)^2 := by
      field_simp
      ring
    rw [h1, h2]
    rw [div_lt_div_iff_of_pos_right (by positivity)]
    linarith

/-- Witness for C5 at a concrete duration and model tag. -/
theorem c5_witness :
    (0 : ℚ) ≤ 100 ∧
    WhisperCli.stepsZ 100 "base" = max 10 ⌊(100 : ℚ) * WhisperCli.time_multipliers "base" / 5⌋ :=
  ⟨by norm_num, (c5_steps_and_ease 100 "base" (by norm_num)).1⟩

namespace VideoTranscriber

/-- `format_time` at 0 seconds. -/
theorem format_time_zero : format_time 0 = "00:00:00,000" := by
  unfold format_time pyMod
  norm_num
  decide

/-- `format_time` at 1.5 seconds. -/
theorem format_time_three_halves : format_time (3/2) = "00:00:01,500" := by
  unfold format_time pyMod
  norm_num
  decide

/-- `format_time_vtt` at 0 seconds. -/
theorem format_time_vtt_zero : format_time_vtt 0 = "00:00:00.000" := by
  unfold format_time_vtt pyMod
  norm_num
  decide

/-- `format_time_vtt` at 1.5 seconds. -/
theorem format_time_vtt_three_halves : format_time_vtt (3/2) = "00:00:01.500" := by
  unfold format_time_vtt pyMod
  norm_num
  decide

end VideoTranscriber

/-- Claim C6: for a result whose segments are exactly
`[{start: 0, end: 1.5, text: "hi"}]` (any full text), the SubRip content is
exactly `"1\n00:00:00,000 --> 00:00:01,500\nhi\n\n"` and the WebVTT content
is `"WEBVTT\n\n"` followed by `"00:00:00.000 --> 00:00:01.500\nhi\n\n"`. -/
theorem c6_subtitle_formatters (t : String) :
    VideoTranscriber.save_transcription ⟨t, [⟨0, 3/2, "hi"⟩]⟩ .srt =
      some "1\n00:00:00,000 --> 00:00:01,500\nhi\n\n" ∧
    VideoTranscriber.save_transcription ⟨t, [⟨0, 3/2, "hi"⟩]⟩ .vtt =
      some ("WEBVTT\n\n" ++ "00:00:00.000 --> 00:00:01.500\nhi\n\n") := by
  constructor
  · show some (String.join ([(⟨0, 3/2, "hi"⟩ : VideoTranscriber.Segment)].enum.map
      (fun p => VideoTranscriber.srtEntry (p.1 + 1) p.2))) = _
    rw [show ([(⟨0, 3/2, "hi"⟩ : VideoTranscriber.Segment)].enum) =
      [(0, (⟨0, 3/2, "hi"⟩ : VideoTranscriber.Segment))] from rfl]
    simp only [List.map_cons, List.map_nil]
    rw [VideoTranscriber.srtEntry]
    rw [VideoTranscriber.format_time_zero, VideoTranscriber.format_time_three_halves]
    decide
  · show some ("WEBVTT\n\n" ++ String.join ([(⟨0, 3/2, "hi"⟩ : VideoTranscriber.Segment)].map
      VideoTranscriber.vttEntry)) = _
    simp only [List.map_cons, List.map_nil]
    rw [VideoTranscriber.vttEntry]
    rw [VideoTranscriber.format_time_vtt_zero, VideoTranscriber.format_time_vtt_three_halves]
    decide

/-- Claim C7: in batch mode, a model-load or inference exception is caught,
a zero-progress error record is printed as the last output line, the
exception is re-raised (the embedded result is that error), and the process
exits non-zero; a run whose `transcribe_video` returns normally exits zero. -/
theorem c7_batch_error_exit (env : WhisperCli.BatchEnv) (m : String) :
    (∀ e, env.loadModel = .error e →
      (WhisperCli.transcribe_video env m).outLines.getLast? =
          some (.prog 0 ("Error: " ++ e)) ∧
        (WhisperCli.transcribe_video env m).result = .error e ∧
        WhisperCli.mainExitCode env m = 1) ∧
    (∀ e n, env.loadModel = .ok () → env.loadAudio = .ok n → env.transcribe = .error e →
      (WhisperCli.transcribe_video env m).outLines.getLast? =
          some (.prog 0 ("Error: " ++ e)) ∧
        (WhisperCli.transcribe_video env m).result = .error e ∧
        WhisperCli.mainExitCode env m = 1) ∧
    (∀ r, (WhisperCli.transcribe_video env m).result = .ok r →
      WhisperCli.mainExitCode env m = 0) := by
  obtain ⟨lm, la, tr, sf, ts⟩ := env
  refine ⟨?_, ?_, ?_⟩
  · intro e he
    subst he
    simp [WhisperCli.transcribe_video, WhisperCli.mainExitCode]
  · intro e n h1 h2 h3
    subst h1 h2 h3
    simp [WhisperCli.transcribe_video, WhisperCli.mainExitCode]
  · intro r hr
    rw [WhisperCli.mainExitCode, hr]

/-- Witness for C7 at a concrete environment whose model load fails. -/
theorem c7_witness :
    (WhisperCli.transcribe_video ⟨.error "boom", .ok 0, .ok none, .ok ("f", "g"), "T0"⟩
        "base").outLines.getLast? = some (.prog 0 ("Error: " ++ "boom")) ∧
    (WhisperCli.transcribe_video ⟨.error "boom", .ok 0, .ok none, .ok ("f", "g"), "T0"⟩
        "base").result = .error "boom" ∧
    WhisperCli.mainExitCode ⟨.error "boom", .ok 0, .ok none, .ok ("f", "g"), "T0"⟩ "base" = 1 :=
  (c7_batch_error_exit ⟨.error "boom", .ok 0, .ok none, .ok ("f", "g"), "T0"⟩ "base").1 "boom" rfl

/-- Claim C8: on a non-existent input path, the batch entry point (whose
external audio loader fails on a missing path) reports a zero-progress
error record and never reaches the model's transcription call, and the
interactive entry point finds no video files, shows a folder error, and
never invokes `transcribe_video`. -/
theorem c8_missing_path_no_model (lm : Except String Unit)
    (tr : Except String (Option WhisperCli.WhisperResult))
    (sf : Except String (String × String)) (ts p m : String) (n : ℕ)
    (fs : VideoTranscriber.FileSystem) (folderPath outputFolder : String) (choice : ℕ) :
    ((WhisperCli.transcribe_video ⟨lm, WhisperCli.loadAudioOf false p n, tr, sf, ts⟩
        m).transcribeCalled = false ∧
      ∃ msg, (WhisperCli.transcribe_video ⟨lm, WhisperCli.loadAudioOf false p n, tr, sf, ts⟩
        m).outLines.getLast? = some (.prog 0 ("Error: " ++ msg))) ∧
    (fs.pathExists folderPath = false →
      VideoTranscriber.get_video_files fs folderPath = [] ∧
      VideoTranscriber.startInvokesModel fs folderPath choice outputFolder = false ∧
      (folderPath ≠ "" → VideoTranscriber.folderErrorShown fs folderPath = true)) := by
  constructor
  · cases lm with
    | error e =>
      refine ⟨?_, e, ?_⟩ <;> simp [WhisperCli.transcribe_video]
    | ok u =>
      cases u
      refine ⟨?_, "Failed to load audio: " ++ p, ?_⟩ <;>
        simp [WhisperCli.transcribe_video, WhisperCli.loadAudioOf]
  · intro hne
    refine ⟨?_, ?_, ?_⟩
    · simp [VideoTranscriber.get_video_files, hne]
    · unfold VideoTranscriber.startInvokesModel VideoTranscriber.selectedVideo
      by_cases hf : folderPath = ""
      · simp [hf]
      · simp [hf, hne]
    · intro hf
      simp [VideoTranscriber.folderErrorShown, hne, hf]

/-- Witness for C8 at a concrete environment and a file system with no
existing paths. -/
theorem c8_witness :
    (WhisperCli.transcribe_video
        ⟨.ok (), WhisperCli.loadAudioOf false "/missing.mp4" 0, .ok none, .ok ("f", "g"), "T0"⟩
        "base").transcribeCalled = false ∧
    VideoTranscriber.folderErrorShown ⟨fun _ => false, fun _ => []⟩ "d" = true := by
  have h := c8_missing_path_no_model (.ok ()) (.ok none) (.ok ("f", "g")) "T0" "/missing.mp4"
    "base" 0 ⟨fun _ => false, fun _ => []⟩ "d" "out" 0
  exact ⟨h.1.1, (h.2 rfl).2.2 (by decide)⟩

/-- Claim C9: when the transcription-file write fails (and the run otherwise
succeeds), a zero-progress "Error saving file" record is printed, exactly
one payload line is emitted, and the final line is the delimiter-wrapped
delivery of the in-memory result (without the `saved_file` field). -/
theorem c9_save_failure_still_delivers (env : WhisperCli.BatchEnv) (m e : String) (n : ℕ)
    (r : WhisperCli.WhisperResult)
    (h1 : env.loadModel = .ok ()) (h2 : env.loadAudio = .ok n)
    (h3 : env.transcribe = .ok (some r))
    (h4 : (⟨WhisperCli.stripPy r.text.data⟩ : String) ≠ "")
    (h5 : env.saveFile = .error e) :
    WhisperCli.OutLine.prog 0 ("Error saving file: " ++ e)
        ∈ (WhisperCli.transcribe_video env m).outLines ∧
    ((WhisperCli.transcribe_video env m).outLines.filter WhisperCli.isPayloadLine).length = 1 ∧
    (WhisperCli.transcribe_video env m).outLines.getLast? =
      some (.payload (WhisperCli.encodeDelivery
        ⟨WhisperCli.sanitizeStr ⟨WhisperCli.stripPy r.text.data⟩, r.language.getD "unknown",
         env.timestampIso, m, WhisperCli.decOfSamples n, none⟩)) := by
  obtain ⟨lm, la, tr, sf, ts⟩ := env
  simp only at h1 h2 h3 h5
  subst h1 h2 h3 h5
  refine ⟨?_, ?_, ?_⟩
  · simp [WhisperCli.transcribe_video, h4]
  · simp [WhisperCli.transcribe_video, h4, WhisperCli.isPayloadLine]
  · simp [WhisperCli.transcribe_video, h4]

/-- Witness for C9 at a concrete environment whose file write fails. -/
theorem c9_witness :
    WhisperCli.OutLine.prog 0 ("Error saving file: " ++ "disk full")
        ∈ (WhisperCli.transcribe_video
          ⟨.ok (), .ok 16000, .ok (some ⟨" hi ", some "en"⟩), .error "disk full", "T0"⟩
          "base").outLines ∧
    ((WhisperCli.transcribe_video
          ⟨.ok (), .ok 16000, .ok (some ⟨" hi ", some "en"⟩), .error "disk full", "T0"⟩
          "base").outLines.filter WhisperCli.isPayloadLine).length = 1 ∧
    (WhisperCli.transcribe_video
          ⟨.ok (), .ok 16000, .ok (some ⟨" hi ", some "en"⟩), .error "disk full", "T0"⟩
          "base").outLines.getLast? =
      some (.payload (WhisperCli.encodeDelivery
        ⟨WhisperCli.sanitizeStr ⟨WhisperCli.stripPy (" hi " : String).data⟩,
         (some "en").getD "unknown", "T0", "base", WhisperCli.decOfSamples 16000, none⟩)) :=
  c9_save_failure_still_delivers
    ⟨.ok (), .ok 16000, .ok (some ⟨" hi ", some "en"⟩), .error "disk full", "T0"⟩
    "base" "disk full" 16000 ⟨" hi ", some "en"⟩ rfl rfl rfl (by decide) rfl

namespace WhisperCli

/-- Matching a literal against itself followed by a remainder. -/
theorem expectLit_append : ∀ (lit r : List Char), expectLit lit (lit ++ r) = some r := by
  intro lit
  induction lit with
  | nil => intro r; rfl
  | cons c cs ih =>
    intro r
    simp only [List.cons_append, expectLit, if_pos rfl]
    exact ih r

/-- Extracting the delimiter-wrapped span recovers the payload. -/
theorem extractSpan_wrap (p : List Char) :
    extractSpan (delimiter ++ p ++ delimiter) = some p := by
  have hsuf : delimiter.isSuffixOf (p ++ delimiter) = true := by
    rw [List.isSuffixOf_iff_suffix]
    exact List.suffix_append p delimiter
  unfold extractSpan
  rw [List.append_assoc, expectLit_append]
  simp only [hsuf, if_true]
  congr 1
  rw [List.length_append, Nat.add_sub_cancel]
  exact List.take_left p delimiter

/-- Base64 alphabet value of an alphabet character. -/
theorem sextetVal_sextetChar : ∀ n < 64, sextetVal (sextetChar n) = some n := by decide

/-- Alphabet characters are never the padding character. -/
theorem sextetChar_ne_pad (n : ℕ) : sextetChar n ≠ '=' := by
  have halph : ∀ c ∈ b64Alphabet, c ≠ '=' := by decide
  unfold sextetChar List.getD
  cases hq : b64Alphabet.get? n with
  | some c =>
    simp only [hq, Option.getD_some]
    exact halph c (List.get?_mem hq)
  | none =>
    simp only [hq, Option.getD_none]
    decide

/-- Base64 decoding inverts base64 encoding on byte lists. -/
theorem b64_roundtrip : ∀ l : List ℕ, (∀ b ∈ l, b < 256) → b64Decode (b64Encode l) = some l
  | [], _ => rfl
  | [a], h => by
    have ha : a < 256 := h a (by simp)
    have e1 : sextetVal (sextetChar (a / 4)) = some (a / 4) :=
      sextetVal_sextetChar _ (by omega)
    have e2 : sextetVal (sextetChar (a % 4 * 16)) = some (a % 4 * 16) :=
      sextetVal_sextetChar _ (by omega)
    simp only [b64Encode, b64Decode, e1, e2, List.isEmpty_nil, Bool.and_self, decide_True,
      Bool.and_true, Bool.true_and, if_true, Option.some.injEq, List.cons.injEq, and_true]
    omega
  | [a, b], h => by
    have ha : a < 256 := h a (by simp)
    have hb : b < 256 := h b (by simp)
    have e1 : sextetVal (sextetChar (a / 4)) = some (a / 4) :=
      sextetVal_sextetChar _ (by omega)
    have e2 : sextetVal (sextetChar (a % 4 * 16 + b / 16)) = some (a % 4 * 16 + b / 16) :=
      sextetVal_sextetChar _ (by omega)
    have e3 : sextetVal (sextetChar (b % 16 * 4)) = some (b % 16 * 4) :=
      sextetVal_sextetChar _ (by omega)
    have n3 := sextetChar_ne_pad (b % 16 * 4)
    simp only [b64Encode, b64Decode, e1, e2, e3, n3, List.isEmpty_nil, decide_True,
      Bool.and_true, Bool.true_and, if_true, if_false, Option.some.injEq, List.cons.injEq,
      and_true]
    omega
  | a :: b :: c :: rest, h => by
    have ha : a < 256 := h a (by simp)
    have hb : b < 256 := h b (by simp)
    have hc : c < 256 := h c (by simp)
    have ih := b64_roundtrip rest (fun x hx => h x (by simp [hx]))
    have e1 : sextetVal (sextetChar (a / 4)) = some (a / 4) :=
      sextetVal_sextetChar _ (by omega)
    have e2 : sextetVal (sextetChar (a % 4 * 16 + b / 16)) = some (a % 4 * 16 + b / 16) :=
      sextetVal_sextetChar _ (by omega)
    have e3 : sextetVal (sextetChar (b % 16 * 4 + c / 64)) = some (b % 16 * 4 + c / 64) :=
      sextetVal_sextetChar _ (by omega)
    have e4 : sextetVal (sextetChar (c % 64)) = some (c % 64) :=
      sextetVal_sextetChar _ (by omega)
    have n3 := sextetChar_ne_pad (b % 16 * 4 + c / 64)
    have n4 := sextetChar_ne_pad (c % 64)
    simp only [b64Encode, b64Decode, e1, e2, e3, e4, n3, n4, ih, decide_True, Bool.and_true,
      Bool.true_and, if_true, if_false, Option.some.injEq, List.cons.injEq, and_true]
    omega

end WhisperCli

namespace WhisperCli

/-- Every code point is below 0x110000. -/
theorem char_toNat_lt (c : Char) : c.toNat < 1114112 := by
  have heq : c.toNat = c.val.toNat := rfl
  rcases c.valid with h | ⟨_, h2⟩
  · have hlt : c.val.toNat < 55296 := h
    omega
  · have hlt : c.val.toNat < 1114112 := h2
    omega

/-- UTF-8 encoding produces bytes. -/
theorem utf8EncodeChar_lt (c : Char) : ∀ b ∈ utf8EncodeChar c, b < 256 := by
  have hlt := char_toNat_lt c
  intro b hb
  dsimp only [utf8EncodeChar] at hb
  split_ifs at hb with h1 h2 h3 <;>
    simp only [List.mem_cons, List.mem_singleton, List.not_mem_nil, or_false] at hb <;>
    omega

/-- Bytes of an encoded character list are below 256. -/
theorem utf8Encode_lt (l : List Char) : ∀ b ∈ utf8Encode l, b < 256 := by
  intro b hb
  obtain ⟨c, _, hbc⟩ := List.mem_flatMap.mp hb
  exact utf8EncodeChar_lt c b hbc

/-- Decoding one encoded character recovers it and proceeds. -/
theorem utf8Decode_encodeChar (c : Char) (rest : List ℕ) :
    utf8Decode (utf8EncodeChar c ++ rest) = (utf8Decode rest).map (fun cs => c :: cs) := by
  have hlt := char_toNat_lt c
  have hofn : Char.ofNat c.toNat = c := Char.ofNat_toNat c
  dsimp only [utf8EncodeChar]
  by_cases h1 : c.toNat < 0x80
  · rw [if_pos h1]
    show utf8Decode (c.toNat :: rest) = _
    rw [utf8Decode]
    rw [if_pos h1, hofn]
  · by_cases h2 : c.toNat < 0x800
    · rw [if_neg h1, if_pos h2]
      show utf8Decode ((0xc0 + c.toNat / 0x40) :: (0x80 + c.toNat % 0x40) :: rest) = _
      have hb1 : ¬(0xc0 + c.toNat / 0x40 < 0x80) := by omega
      have hb2 : ¬(0xc0 + c.toNat / 0x40 < 0xc0) := by omega
      have hb3 : 0xc0 + c.toNat / 0x40 < 0xe0 := by omega
      have hcont : isContByte (0x80 + c.toNat % 0x40) = true := by
        simp only [isContByte, Bool.and_eq_true, decide_eq_true_eq]
        omega
      rw [utf8Decode, if_neg hb1, if_neg hb2, if_pos hb3]
      rw [utf8Dec2, hcont, if_pos rfl]
      have hv : (0xc0 + c.toNat / 0x40 - 0xc0) * 0x40 + (0x80 + c.toNat % 0x40 - 0x80)
          = c.toNat := by omega
      rw [hv, hofn]
    · by_cases h3 : c.toNat < 0x10000
      · rw [if_neg h1, if_neg h2, if_pos h3]
        show utf8Decode ((0xe0 + c.toNat / 0x1000) :: (0x80 + c.toNat / 0x40 % 0x40)
          :: (0x80 + c.toNat % 0x40) :: rest) = _
        have hb1 : ¬(0xe0 + c.toNat / 0x1000 < 0x80) := by omega
        have hb2 : ¬(0xe0 + c.toNat / 0x1000 < 0xc0) := by omega
        have hb3 : ¬(0xe0 + c.toNat / 0x1000 < 0xe0) := by omega
        have hb4 : 0xe0 + c.toNat / 0x1000 < 0xf0 := by omega
        have hcont1 : isContByte (0x80 + c.toNat / 0x40 % 0x40) = true := by
          simp only [isContByte, Bool.and_eq_true, decide_eq_true_eq]
          omega
        have hcont2 : isContByte (0x80 + c.toNat % 0x40) = true := by
          simp only [isContByte, Bool.and_eq_true, decide_eq_true_eq]
          omega
        rw [utf8Decode, if_neg hb1, if_neg hb2, if_neg hb3, if_pos hb4]
        rw [utf8Dec3, hcont1, hcont2, Bool.and_self, if_pos rfl]
        have hv : ((0xe0 + c.toNat / 0x1000 - 0xe0) * 0x40
            + (0x80 + c.toNat / 0x40 % 0x40 - 0x80))
            * 0x40 + (0x80 + c.toNat % 0x40 - 0x80) = c.toNat := by omega
        rw [hv, hofn]
      · rw [if_neg h1, if_neg h2, if_neg h3]
        show utf8Decode ((0xf0 + c.toNat / 0x40000) :: (0x80 + c.toNat / 0x1000 % 0x40)
          :: (0x80 + c.toNat / 0x40 % 0x40) :: (0x80 + c.toNat % 0x40) :: rest) = _
        have hb1 : ¬(0xf0 + c.toNat / 0x40000 < 0x80) := by omega
        have hb2 : ¬(0xf0 + c.toNat / 0x40000 < 0xc0) := by omega
        have hb3 : ¬(0xf0 + c.toNat / 0x40000 < 0xe0) := by omega
        have hb4 : ¬(0xf0 + c.toNat / 0x40000 < 0xf0) := by omega
        have hb5 : 0xf0 + c.toNat / 0x40000 < 0xf8 := by omega
        have hcont1 : isContByte (0x80 + c.toNat / 0x1000 % 0x40) = true := by
          simp only [isContByte, Bool.and_eq_true, decide_eq_true_eq]
          omega
        have hcont2 : isContByte (0x80 + c.toNat / 0x40 % 0x40) = true := by
          simp only [isContByte, Bool.and_eq_true, decide_eq_true_eq]
          omega
        have hcont3 : isContByte (0x80 + c.toNat % 0x40) = true := by
          simp only [isContByte, Bool.and_eq_true, decide_eq_true_eq]
          omega
        rw [utf8Decode, if_neg hb1, if_neg hb2, if_neg hb3, if_neg hb4, if_pos hb5]
        rw [utf8Dec4, hcont1, hcont2, hcont3, Bool.and_self, Bool.and_self, if_pos rfl]
        have hv : (((0xf0 + c.toNat / 0x40000 - 0xf0) * 0x40
            + (0x80 + c.toNat / 0x1000 % 0x40 - 0x80)) * 0x40
            + (0x80 + c.toNat / 0x40 % 0x40 - 0x80)) * 0x40
            + (0x80 + c.toNat % 0x40 - 0x80) = c.toNat := by omega
        rw [hv, hofn]

/-- UTF-8 decoding inverts UTF-8 encoding. -/
theorem utf8_roundtrip (l : List Char) : utf8Decode (utf8Encode l) = some l := by
  induction l with
  | nil => rw [show utf8Encode [] = [] from rfl, utf8Decode]
  | cons c rest ih =>
    show utf8Decode (utf8EncodeChar c ++ utf8Encode rest) = _
    rw [utf8Decode_encodeChar, ih]
    rfl

end WhisperCli

namespace WhisperCli

set_option maxRecDepth 2048 in
/-- Code points below 256 survive `Char.ofNat`. -/
theorem toNat_ofNat_small : ∀ m, m < 256 → (Char.ofNat m).toNat = m := by decide

/-- The digit list of `n` has value `n`. -/
theorem valDigitsRev_digitsRevGo : ∀ (f n : ℕ), n ≤ f → valDigitsRev (digitsRevGo f n) = n := by
  intro f
  induction f with
  | zero =>
    intro n hn
    interval_cases n
    rfl
  | succ f ih =>
    intro n hn
    match n with
    | 0 => rfl
    | n + 1 =>
      show valDigitsRev ((n + 1) % 10 :: digitsRevGo f ((n + 1) / 10)) = n + 1
      have hrec := ih ((n + 1) / 10) (by omega)
      show (n + 1) % 10 + 10 * valDigitsRev (digitsRevGo f ((n + 1) / 10)) = n + 1
      rw [hrec]
      omega

/-- All digits produced are below 10. -/
theorem digitsRevGo_lt : ∀ (f n : ℕ), ∀ d ∈ digitsRevGo f n, d < 10 := by
  intro f
  induction f with
  | zero => intro n d hd; cases hd
  | succ f ih =>
    intro n d hd
    match n with
    | 0 => cases hd
    | n + 1 =>
      rcases List.mem_cons.mp hd with h | h
      · omega
      · exact ih _ d h

/-- The digit list of `n < 10 ^ k` has at most `k` digits. -/
theorem digitsRevGo_len : ∀ (f n k : ℕ), n ≤ f → n < 10 ^ k → (digitsRevGo f n).length ≤ k := by
  intro f
  induction f with
  | zero =>
    intro n k hn _
    interval_cases n
    simp [digitsRevGo]
  | succ f ih =>
    intro n k hn hk
    match n with
    | 0 => simp [digitsRevGo]
    | n + 1 =>
      show (( n + 1) % 10 :: digitsRevGo f ((n + 1) / 10)).length ≤ k
      have hk1 : 1 ≤ k := by
        by_contra hc
        interval_cases k
        omega
      have hdiv : (n + 1) / 10 < 10 ^ (k - 1) := by
        have h10 : (10 : ℕ) ^ k = 10 * 10 ^ (k - 1) := by
          rw [← pow_succ']
          congr 1
          omega
        rw [h10] at hk
        exact Nat.div_lt_of_lt_mul (by omega)
      have := ih ((n + 1) / 10) (k - 1) (by omega) hdiv
      simp only [List.length_cons]
      omega

/-- A positive number has a nonempty digit list. -/
theorem digitsRevGo_ne_nil : ∀ (f n : ℕ), 0 < n → n ≤ f → digitsRevGo f n ≠ [] := by
  intro f n h1 h2
  match f, n with
  | 0, n => omega
  | f + 1, n + 1 => simp [digitsRevGo]

/-- All characters of a rendered natural number are digits. -/
theorem natToChars_digits (n : ℕ) : ∀ c ∈ natToChars n, isDigitChar c = true := by
  intro c hc
  unfold natToChars at hc
  by_cases h : n = 0
  · rw [if_pos h] at hc
    simp only [List.mem_singleton] at hc
    subst hc
    decide
  · rw [if_neg h] at hc
    rw [List.mem_reverse] at hc
    obtain ⟨d, hd, hdc⟩ := List.mem_map.mp hc
    have hd10 := digitsRevGo_lt n n d hd
    subst hdc
    unfold digitChar isDigitChar
    rw [toNat_ofNat_small (48 + d) (by omega)]
    simp only [Bool.and_eq_true, decide_eq_true_eq]
    omega

/-- The rendered natural number is never empty. -/
theorem natToChars_ne_nil (n : ℕ) : natToChars n ≠ [] := by
  unfold natToChars
  by_cases h : n = 0
  · rw [if_pos h]
    decide
  · rw [if_neg h]
    rw [ne_eq, List.reverse_eq_nil_iff, List.map_eq_nil_iff]
    exact digitsRevGo_ne_nil n n (by omega) le_rfl

/-- Reading the rendered digits of `n` back gives `n`. -/
theorem natToChars_val (n : ℕ) :
    List.foldl (fun a c => a * 10 + (c.toNat - 48)) 0 (natToChars n) = n := by
  have aux : ∀ (ds : List ℕ), (∀ d ∈ ds, d < 10) →
      List.foldr (fun d y => y * 10 + ((digitChar d).toNat - 48)) 0 ds = valDigitsRev ds := by
    intro ds
    induction ds with
    | nil => intro _; rfl
    | cons d ds ih =>
      intro h
      show (List.foldr _ 0 ds) * 10 + ((digitChar d).toNat - 48) = d + 10 * valDigitsRev ds
      rw [ih (fun x hx => h x (List.mem_cons_of_mem d hx))]
      unfold digitChar
      rw [toNat_ofNat_small (48 + d) (by have := h d (List.mem_cons_self d ds); omega)]
      omega
  unfold natToChars
  by_cases h : n = 0
  · rw [if_pos h, h]
    rfl
  · rw [if_neg h]
    rw [List.foldl_reverse]
    rw [List.foldr_map]
    show List.foldr (fun d y => y * 10 + ((digitChar d).toNat - 48)) 0 (digitsRevGo n n) = n
    rw [aux _ (digitsRevGo_lt n n)]
    exact valDigitsRev_digitsRevGo n n le_rfl

/-- The rendered form of `n < 10 ^ k` has at most `k` characters. -/
theorem natToChars_len (n k : ℕ) (h : n < 10 ^ k) (hk : 0 < k) : (natToChars n).length ≤ k := by
  unfold natToChars
  by_cases h0 : n = 0
  · rw [if_pos h0]
    simpa using hk
  · rw [if_neg h0]
    rw [List.length_reverse, List.length_map]
    exact digitsRevGo_len n n k le_rfl h

end WhisperCli

namespace WhisperCli

/-- Digit-run parsing consumes exactly a leading digit block. -/
theorem parseDigitsGo_append :
    ∀ (ds : List Char) (acc cnt : ℕ) (rest : List Char),
      (∀ c ∈ ds, isDigitChar c = true) →
      (∀ c, rest.head? = some c → isDigitChar c = false) →
      parseDigitsGo acc cnt (ds ++ rest)
        = (List.foldl (fun a c => a * 10 + (c.toNat - 48)) acc ds, cnt + ds.length, rest) := by
  intro ds
  induction ds with
  | nil =>
    intro acc cnt rest _ hrest
    cases rest with
    | nil => rfl
    | cons c r =>
      show parseDigitsGo acc cnt (c :: r) = _
      rw [parseDigitsGo]
      rw [if_neg (by simp [hrest c rfl])]
      rfl
  | cons d ds ih =>
    intro acc cnt rest hds hrest
    show parseDigitsGo acc cnt (d :: (ds ++ rest)) = _
    rw [parseDigitsGo]
    rw [if_pos (hds d (List.mem_cons_self d ds))]
    rw [ih _ _ rest (fun c hc => hds c (List.mem_cons_of_mem d hc)) hrest]
    simp only [List.foldl_cons, List.length_cons]
    rw [show cnt + 1 + ds.length = cnt + (ds.length + 1) from by omega]

/-- Parsing a nonempty digit block before a non-digit. -/
theorem parseNatCnt_append (ds rest : List Char) (hne : ds ≠ [])
    (hds : ∀ c ∈ ds, isDigitChar c = true)
    (hrest : ∀ c, rest.head? = some c → isDigitChar c = false) :
    parseNatCnt (ds ++ rest)
      = some (List.foldl (fun a c => a * 10 + (c.toNat - 48)) 0 ds, ds.length, rest) := by
  cases ds with
  | nil => cases hne rfl
  | cons d ds' =>
    show parseNatCnt (d :: (ds' ++ rest)) = _
    rw [parseNatCnt]
    rw [if_pos (hds d (List.mem_cons_self d ds'))]
    rw [show d :: (ds' ++ rest) = (d :: ds') ++ rest from rfl]
    rw [parseDigitsGo_append (d :: ds') 0 0 rest hds hrest]
    rw [Nat.zero_add]

/-- Leading zeros do not change the accumulated value zero. -/
theorem foldl_zeros (k : ℕ) :
    List.foldl (fun a c => a * 10 + (c.toNat - 48)) 0 (List.replicate k '0') = 0 := by
  induction k with
  | zero => rfl
  | succ k ih =>
    show List.foldl _ (0 * 10 + ('0'.toNat - 48)) (List.replicate k '0') = 0
    have h0 : 0 * 10 + ('0'.toNat - 48) = 0 := by decide
    rw [h0]
    exact ih

/-- The value of a zero-padded digit block. -/
theorem foldl_padZeros (w : ℕ) (l : List Char) :
    List.foldl (fun a c => a * 10 + (c.toNat - 48)) 0 (padZeros w l)
      = List.foldl (fun a c => a * 10 + (c.toNat - 48)) 0 l := by
  unfold padZeros
  rw [List.foldl_append, foldl_zeros]

/-- All characters of a zero-padded digit block are digits. -/
theorem padZeros_digits (w : ℕ) (l : List Char) (h : ∀ c ∈ l, isDigitChar c = true) :
    ∀ c ∈ padZeros w l, isDigitChar c = true := by
  intro c hc
  rcases List.mem_append.mp hc with h1 | h1
  · rw [List.eq_of_mem_replicate h1]
    decide
  · exact h c h1

/-- A zero-padded block has exactly the target width. -/
theorem padZeros_length (w : ℕ) (l : List Char) (h : l.length ≤ w) :
    (padZeros w l).length = w := by
  unfold padZeros
  rw [List.length_append, List.length_replicate]
  omega

/-- A zero-padded block of positive width is nonempty. -/
theorem padZeros_ne_nil (w : ℕ) (l : List Char) (hw : 0 < w) (h : l.length ≤ w) :
    padZeros w l ≠ [] := by
  intro hnil
  have := padZeros_length w l h
  rw [hnil] at this
  simp at this
  omega

/-- Canonicalization yields a canonical decimal. -/
theorem canonDec_wf (m : ℕ) : ∀ f, decWf (canonDec m f) := by
  intro f
  induction f generalizing m with
  | zero => exact Or.inl rfl
  | succ f ih =>
    show decWf (if m % 10 = 0 then canonDec (m / 10) f else (m, f + 1))
    by_cases h : m % 10 = 0
    · rw [if_pos h]
      exact ih _
    · rw [if_neg h]
      exact Or.inr ⟨Nat.succ_pos f, h⟩

/-- A canonical decimal is already canonical. -/
theorem canonDec_self (m f : ℕ) (hwf : decWf (m, f)) : canonDec m f = (m, f) := by
  rcases hwf with h | ⟨h1, h2⟩
  · simp only at h
    subst h
    rfl
  · simp only at h1 h2
    match f, h1 with
    | f + 1, _ =>
      show (if m % 10 = 0 then canonDec (m / 10) f else (m, f + 1)) = _
      rw [if_neg h2]

/-- Parsing the rendered decimal recovers the canonical representation. -/
theorem parseDec_renderDec (p : ℕ × ℕ) (hwf : decWf p) (rest : List Char)
    (hrest : ∀ c, rest.head? = some c → isDigitChar c = false) :
    parseDec (renderDec p ++ rest) = some (p, rest) := by
  obtain ⟨m, f⟩ := p
  rcases hwf with hf0 | ⟨hfpos, hm10⟩
  · simp only at hf0
    subst hf0
    show parseDec ((natToChars m ++ ['.', '0']) ++ rest) = _
    rw [List.append_assoc]
    rw [show (['.', '0'] : List Char) ++ rest = '.' :: '0' :: rest from rfl]
    unfold parseDec
    rw [parseNatCnt_append (natToChars m) ('.' :: '0' :: rest) (natToChars_ne_nil m)
      (natToChars_digits m) (by intro c hc; cases hc; decide)]
    rw [natToChars_val]
    show (match parseNatCnt ('0' :: rest) with
      | none => none
      | some (fv, fc, r3) => some (canonDec (m * 10 ^ fc + fv) fc, r3)) = _
    rw [show ('0' :: rest) = ['0'] ++ rest from rfl]
    rw [parseNatCnt_append ['0'] rest (by decide) (by decide) hrest]
    show some (canonDec (m * 10 ^ 1 + (0 * 10 + ('0'.toNat - 48))) 1, rest) = _
    have hv : m * 10 ^ 1 + (0 * 10 + ('0'.toNat - 48)) = m * 10 := by
      show m * 10 ^ 1 + (0 * 10 + (48 - 48)) = m * 10
      ring_nf
    rw [hv]
    show some (if m * 10 % 10 = 0 then canonDec (m * 10 / 10) 0 else (m * 10, 1), rest) = _
    rw [if_pos (by omega)]
    rw [show m * 10 / 10 = m by omega]
    rfl
  · simp only at hfpos hm10
    unfold renderDec
    rw [if_neg (show ¬((m, f).2 = 0) from by simp only; omega)]
    simp only
    rw [List.append_assoc, List.cons_append]
    unfold parseDec
    rw [parseNatCnt_append (natToChars (m / 10 ^ f)) ('.' :: (padZeros f (natToChars (m % 10 ^ f)) ++ rest))
      (natToChars_ne_nil _) (natToChars_digits _) (by intro c hc; cases hc; decide)]
    rw [natToChars_val]
    have hlen : (natToChars (m % 10 ^ f)).length ≤ f :=
      natToChars_len _ f (Nat.mod_lt _ (by positivity)) hfpos
    show (match parseNatCnt (padZeros f (natToChars (m % 10 ^ f)) ++ rest) with
      | none => none
      | some (fv, fc, r3) => some (canonDec (m / 10 ^ f * 10 ^ fc + fv) fc, r3)) = _
    rw [parseNatCnt_append _ rest (padZeros_ne_nil f _ hfpos hlen)
      (padZeros_digits f _ (natToChars_digits _)) hrest]
    rw [foldl_padZeros, natToChars_val, padZeros_length f _ hlen]
    show some (canonDec (m / 10 ^ f * 10 ^ f + m % 10 ^ f) f, rest) = _
    rw [Nat.div_add_mod']
    rw [canonDec_self m f (Or.inr ⟨hfpos, hm10⟩)]

end WhisperCli

namespace WhisperCli

/-- Hex parsing inverts hex rendering for one digit. -/
theorem hexVal_digitHex : ∀ m, m < 16 → hexVal (digitHex m) = some m := by decide

/-- Parsing inverts escaping: the escaped text followed by the closing
quote and a remainder parses back to the original text and remainder. -/
theorem parseJString_escape :
    ∀ (l rest : List Char), parseJString (l.flatMap escapeChar ++ '"' :: rest) = some (l, rest) := by
  intro l
  induction l with
  | nil =>
    intro rest
    show parseJString ('"' :: rest) = _
    rw [parseJString, if_pos rfl]
  | cons c l' ih =>
    intro rest
    rw [List.flatMap_cons, List.append_assoc]
    by_cases h1 : c = '"'
    · rw [show escapeChar c = ['\\', '"'] from by rw [escapeChar, if_pos h1]]
      rw [show (['\\', '"'] : List Char) ++ (l'.flatMap escapeChar ++ '"' :: rest)
        = '\\' :: '"' :: (l'.flatMap escapeChar ++ '"' :: rest) from rfl]
      rw [parseJString, if_neg (by decide), if_pos rfl]
      rw [parseJEscape, if_pos rfl]
      rw [ih rest]
      rw [h1]
      rfl
    · by_cases h2 : c = '\\'
      · rw [show escapeChar c = ['\\', '\\'] from by rw [escapeChar, if_neg h1, if_pos h2]]
        rw [show (['\\', '\\'] : List Char) ++ (l'.flatMap escapeChar ++ '"' :: rest)
          = '\\' :: '\\' :: (l'.flatMap escapeChar ++ '"' :: rest) from rfl]
        rw [parseJString, if_neg (by decide), if_pos rfl]
        rw [parseJEscape, if_neg (by decide), if_pos rfl]
        rw [ih rest]
        rw [h2]
        rfl
      · by_cases h3 : c = '\n'
        · rw [show escapeChar c = ['\\', 'n'] from by
            rw [escapeChar, if_neg h1, if_neg h2, if_pos h3]]
          rw [show (['\\', 'n'] : List Char) ++ (l'.flatMap escapeChar ++ '"' :: rest)
            = '\\' :: 'n' :: (l'.flatMap escapeChar ++ '"' :: rest) from rfl]
          rw [parseJString, if_neg (by decide), if_pos rfl]
          rw [parseJEscape, if_neg (by decide), if_neg (by decide), if_neg (by decide),
            if_pos rfl]
          rw [ih rest]
          rw [h3]
          rfl
        · by_cases h4 : c = '\r'
          · rw [show escapeChar c = ['\\', 'r'] from by
              rw [escapeChar, if_neg h1, if_neg h2, if_neg h3, if_pos h4]]
            rw [show (['\\', 'r'] : List Char) ++ (l'.flatMap escapeChar ++ '"' :: rest)
              = '\\' :: 'r' :: (l'.flatMap escapeChar ++ '"' :: rest) from rfl]
            rw [parseJString, if_neg (by decide), if_pos rfl]
            rw [parseJEscape, if_neg (by decide), if_neg (by decide), if_neg (by decide),
              if_neg (by decide), if_pos rfl]
            rw [ih rest]
            rw [h4]
            rfl
          · by_cases h5 : c = '\t'
            · rw [show escapeChar c = ['\\', 't'] from by
                rw [escapeChar, if_neg h1, if_neg h2, if_neg h3, if_neg h4, if_pos h5]]
              rw [show (['\\', 't'] : List Char) ++ (l'.flatMap escapeChar ++ '"' :: rest)
                = '\\' :: 't' :: (l'.flatMap escapeChar ++ '"' :: rest) from rfl]
              rw [parseJString, if_neg (by decide), if_pos rfl]
              rw [parseJEscape, if_neg (by decide), if_neg (by decide), if_neg (by decide),
                if_neg (by decide), if_neg (by decide), if_pos rfl]
              rw [ih rest]
              rw [h5]
              rfl
            · by_cases h6 : c.toNat = 8
              · rw [show escapeChar c = ['\\', 'b'] from by
                  rw [escapeChar, if_neg h1, if_neg h2, if_neg h3, if_neg h4, if_neg h5,
                    if_pos h6]]
                rw [show (['\\', 'b'] : List Char) ++ (l'.flatMap escapeChar ++ '"' :: rest)
                  = '\\' :: 'b' :: (l'.flatMap escapeChar ++ '"' :: rest) from rfl]
                rw [parseJString, if_neg (by decide), if_pos rfl]
                rw [parseJEscape, if_neg (by decide), if_neg (by decide), if_neg (by decide),
                  if_neg (by decide), if_neg (by decide), if_neg (by decide), if_pos rfl]
                rw [ih rest]
                rw [show Char.ofNat 8 = c from by rw [← h6]; exact Char.ofNat_toNat c]
                rfl
              · by_cases h7 : c.toNat = 12
                · rw [show escapeChar c = ['\\', 'f'] from by
                    rw [escapeChar, if_neg h1, if_neg h2, if_neg h3, if_neg h4, if_neg h5,
                      if_neg h6, if_pos h7]]
                  rw [show (['\\', 'f'] : List Char) ++ (l'.flatMap escapeChar ++ '"' :: rest)
                    = '\\' :: 'f' :: (l'.flatMap escapeChar ++ '"' :: rest) from rfl]
                  rw [parseJString, if_neg (by decide), if_pos rfl]
                  rw [parseJEscape, if_neg (by decide), if_neg (by decide), if_neg (by decide),
                    if_neg (by decide), if_neg (by decide), if_neg (by decide),
                    if_neg (by decide), if_pos rfl]
                  rw [ih rest]
                  rw [show Char.ofNat 12 = c from by rw [← h7]; exact Char.ofNat_toNat c]
                  rfl
                · by_cases h8 : c.toNat < 0x20
                  · rw [show escapeChar c
                        = ['\\', 'u', '0', '0', digitHex (c.toNat / 16), digitHex (c.toNat % 16)]
                      from by
                        rw [escapeChar, if_neg h1, if_neg h2, if_neg h3, if_neg h4, if_neg h5,
                          if_neg h6, if_neg h7, if_pos h8]]
                    rw [show (['\\', 'u', '0', '0', digitHex (c.toNat / 16),
                        digitHex (c.toNat % 16)] : List Char)
                        ++ (l'.flatMap escapeChar ++ '"' :: rest)
                      = '\\' :: 'u' :: '0' :: '0' :: digitHex (c.toNat / 16)
                        :: digitHex (c.toNat % 16) :: (l'.flatMap escapeChar ++ '"' :: rest)
                      from rfl]
                    rw [parseJString, if_neg (by decide), if_pos rfl]
                    rw [parseJEscape, if_neg (by decide), if_neg (by decide), if_neg (by decide),
                      if_neg (by decide), if_neg (by decide), if_neg (by decide),
                      if_neg (by decide), if_neg (by decide), if_pos rfl]
                    rw [parseJHex]
                    rw [show hexVal '0' = some 0 from by decide]
                    rw [hexVal_digitHex (c.toNat / 16) (by omega)]
                    rw [hexVal_digitHex (c.toNat % 16) (by omega)]
                    show (parseJString (l'.flatMap escapeChar ++ '"' :: rest)).map
                      (fun p => (Char.ofNat (((0 * 16 + 0) * 16 + c.toNat / 16) * 16
                        + c.toNat % 16) :: p.1, p.2)) = _
                    rw [ih rest]
                    rw [show ((0 * 16 + 0) * 16 + c.toNat / 16) * 16 + c.toNat % 16 = c.toNat
                      from by omega]
                    rw [Char.ofNat_toNat]
                    rfl
                  · rw [show escapeChar c = [c] from by
                      rw [escapeChar, if_neg h1, if_neg h2, if_neg h3, if_neg h4, if_neg h5,
                        if_neg h6, if_neg h7, if_neg h8]]
                    rw [show ([c] : List Char) ++ (l'.flatMap escapeChar ++ '"' :: rest)
                      = c :: (l'.flatMap escapeChar ++ '"' :: rest) from rfl]
                    rw [parseJString, if_neg h1, if_neg h2]
                    rw [ih rest]
                    rfl

end WhisperCli

namespace WhisperCli

theorem mk_data (s : String) : String.mk s.data = s := by
  cases s
  rfl

set_option maxHeartbeats 2000000 in
theorem parseResult_serializeResult (fr : FinalResult) (hwf : decWf fr.duration) :
    parseResult (serializeResult fr) = some fr := by
  obtain ⟨text, lang, ts, model, dur, saved⟩ := fr
  simp only at hwf
  have hd1 : parseDec (renderDec dur ++ ['\x7d']) = some (dur, ['\x7d']) :=
    parseDec_renderDec dur hwf ['\x7d'] (by intro c hc; injection hc with h; rw [← h]; decide)
  cases saved with
  | none =>
    unfold serializeResult parseResult
    simp only [escapeString, mk_data]
    simp [expectLit, parseJString_escape, Option.some_bind, List.cons_append,
      List.append_assoc, hd1, mk_data]
  | some f =>
    have hd2 : parseDec (renderDec dur ++ (", \"saved_file\": \"".data
        ++ (f.data.flatMap escapeChar ++ '"' :: ['\x7d'])))
        = some (dur, ", \"saved_file\": \"".data
          ++ (f.data.flatMap escapeChar ++ '"' :: ['\x7d'])) :=
      parseDec_renderDec dur hwf _ (by intro c hc; injection hc with h; rw [← h]; decide)
    simp [List.cons_append, List.append_assoc] at hd2
    unfold serializeResult parseResult
    simp only [escapeString, mk_data]
    simp [expectLit, parseJString_escape, Option.some_bind, List.cons_append,
      List.append_assoc, hd2, mk_data]

/-- Claim C2: serializing a result to JSON, base64-encoding its UTF-8 bytes and
wrapping the line in the fixed delimiter, then extracting the delimiter-wrapped
span, base64-decoding, UTF-8-decoding and parsing, reproduces the result. -/
theorem c2_delivery_roundtrip (fr : FinalResult) (hwf : decWf fr.duration) :
    decodeDelivery (encodeDelivery fr) = some fr := by
  have h1 : extractSpan (encodeDelivery fr)
      = some (b64Encode (utf8Encode (serializeResult fr))) := extractSpan_wrap _
  have h2 : b64Decode (b64Encode (utf8Encode (serializeResult fr)))
      = some (utf8Encode (serializeResult fr)) :=
    b64_roundtrip _ (utf8Encode_lt _)
  have h3 : utf8Decode (utf8Encode (serializeResult fr)) = some (serializeResult fr) :=
    utf8_roundtrip _
  simp only [decodeDelivery, h1, h2, h3]
  exact parseResult_serializeResult fr hwf

/-- Concrete round-trip instance discharging the canonical-duration hypothesis. -/
theorem c2_witness :
    decWf ((0, 0) : Nat × Nat) ∧
      decodeDelivery (encodeDelivery ⟨"hi", "en", "t", "base", (0, 0), none⟩)
        = some ⟨"hi", "en", "t", "base", (0, 0), none⟩ :=
  ⟨Or.inl rfl, c2_delivery_roundtrip _ (Or.inl rfl)⟩

end WhisperCli
